import Mathlib

/-!
Verification development for the `IOCFetch` release-acquisition and
plugin-provisioning pipeline (`iocage/lib/ioc_fetch.py`).

Modelling conventions (shallow embedding):
* Python strings are `List Char` (`PyStr`); `str.upper`, `in`, `startswith`,
  slicing and `os.path` functions are given executable models below.
* `None`-able values are `Option`; Python exceptions that escape a function
  are explicit result constructors.
* Filesystem and network effects are modelled by explicit parameters
  (file-presence predicates, on-disk digest maps) and by event traces.
-/

/-- Model of a Python string: a list of characters. -/
abbrev PyStr := List Char

/-- Name of the checksum manifest file. -/
def pyMANIFEST : PyStr := "MANIFEST".toList

/-- Name of the 32-bit compatibility archive. -/
def pyLib32 : PyStr := "lib32.txz".toList

/-- Literal `"."`. -/
def pyDot : PyStr := ".".toList

/-- Literal `".."`. -/
def pyDotDot : PyStr := "..".toList

/-- Literal `"./"`. -/
def pyDotSlash : PyStr := "./".toList

/-- Decides whether `pat` occurs as a contiguous substring of the second
argument; model of Python's `pat in s`. -/
def strHas (pat : PyStr) : PyStr → Bool
  | [] => List.isPrefixOf pat []
  | c :: rest => List.isPrefixOf pat (c :: rest) || strHas pat rest

/-- Model of Python `str.upper` on a single character (ASCII range; the
release identifiers handled by the source are ASCII). -/
def pyCharUpper (c : Char) : Char :=
  if c.toNat ≥ 97 ∧ c.toNat ≤ 122 then Char.ofNat (c.toNat - 32) else c

/-- Model of Python `str.upper`. -/
def pyUpper (s : PyStr) : PyStr := s.map pyCharUpper

/-- Model of Python `str.lower` on a single character (ASCII range). -/
def pyCharLower (c : Char) : Char :=
  if c.toNat ≥ 65 ∧ c.toNat ≤ 90 then Char.ofNat (c.toNat + 32) else c

/-- Model of Python `str.lower`. -/
def pyLower (s : PyStr) : PyStr := s.map pyCharLower

/-! ### `os.path` model

`fetch_extract` computes target paths with `os.path.join`,
`os.path.abspath` and `os.path.commonprefix`.  All paths reaching
`os.path.abspath` in that code are absolute (the destination is an
absolute dataset mountpoint), so `abspath` is modelled as POSIX
`normpath` restricted to absolute inputs (the `"//"` double-slash corner
of `normpath` is not modelled; the hypotheses of the theorems below pin
the destination to a normalized single-slash path). -/

/-- Splits a path into components at `'/'`; model of `path.split("/")`. -/
def splitSlash : PyStr → List PyStr
  | [] => [[]]
  | c :: cs =>
    if c = '/' then [] :: splitSlash cs
    else (c :: (splitSlash cs).headI) :: (splitSlash cs).tail

/-- Component-processing loop of POSIX `os.path.normpath` for an absolute
path: empty and `"."` components are dropped, `".."` pops the last kept
component (or is dropped at the root), any other component is kept. -/
def normAcc (acc : List PyStr) : List PyStr → List PyStr
  | [] => acc
  | c :: cs =>
    if c = [] ∨ c = pyDot then normAcc acc cs
    else if c = pyDotDot then normAcc acc.dropLast cs
    else normAcc (acc ++ [c]) cs

/-- Joins components with `'/'` separators, one separator before each
component (the shape produced by POSIX `normpath` for absolute paths). -/
def renderFold (comps : List PyStr) : PyStr :=
  comps.foldl (fun acc c => acc ++ '/' :: c) []

/-- Rebuilds an absolute path from its normalized components. -/
def renderAbs (comps : List PyStr) : PyStr :=
  if comps = [] then ['/'] else renderFold comps

/-- Model of `os.path.abspath` on the absolute paths occurring in
`fetch_extract` (normalization only). -/
def pyAbspath (p : PyStr) : PyStr := renderAbs (normAcc [] (splitSlash p))

/-- Longest common character prefix of two strings; model of
`os.path.commonprefix` applied to a two-element list. -/
def commonPref : PyStr → PyStr → PyStr
  | x :: xs, y :: ys => if x = y then x :: commonPref xs ys else []
  | _, _ => []

/-- Model of `os.path.join(path, b)` (POSIX). -/
def pyJoin (path b : PyStr) : PyStr :=
  if List.isPrefixOf ['/'] b then b
  else if path = [] ∨ path.getLast? = some '/' then path ++ b
  else path ++ '/' :: b

/-- Translation of `is_within_directory` from `fetch_extract`
(`ioc_fetch.py` lines 809-816): the character-wise common prefix of the
two normalized paths must equal the normalized directory. -/
def is_within_directory (directory target : PyStr) : Bool :=
  commonPref (pyAbspath directory) (pyAbspath target) == pyAbspath directory

/-- Specification-side notion of path containment used by the claim: the
normalized components of the directory are a proper front of the
normalized components of the target, so the target lies strictly inside
the directory. -/
def resolvesInside (directory target : PyStr) : Bool :=
  let d := normAcc [] (splitSlash directory)
  let t := normAcc [] (splitSlash target)
  List.isPrefixOf d t && d != t

/-! ### Archive member filtering and extraction
(`__fetch_check_members__`, lines 767-787, and `fetch_extract`,
lines 789-828). -/

/-- Result of `__fetch_check_members__`: the members kept for extraction
and the members skipped with a warning (in the order processed).  The
literal `"."` member is skipped without a warning (`continue`). -/
structure MembersFilter where
  kept : List PyStr
  warned : List PyStr
  deriving DecidableEq, Repr

/-- Filter condition of `__fetch_check_members__` (line 775): the member
name contains `".."` or does not start with `"./"`. -/
def memberBad (m : PyStr) : Bool :=
  strHas pyDotDot m || !(List.isPrefixOf pyDotSlash m)

/-- Translation of `__fetch_check_members__`: drops the `"."` member
silently, warns about and drops every member whose name contains `".."`
or does not start with `"./"`, and keeps the rest. -/
def fetchCheckMembers (members : List PyStr) : MembersFilter :=
  members.foldl
    (fun st m =>
      if m = pyDot then st
      else if memberBad m then { st with warned := st.warned ++ [m] }
      else { st with kept := st.kept ++ [m] })
    ⟨[], []⟩

/-- Outcome of `safe_extract`: either the listed members are extracted
(written) into the destination, or the whole extraction aborts with the
path-traversal exception before anything is written. -/
inductive ExtractOutcome where
  | extracted (files : List PyStr)
  | traversalError
  deriving DecidableEq, Repr

/-- Translation of `safe_extract` (lines 818-828): every member of the
archive (the full member list, not the filtered one) is checked with
`is_within_directory` against `os.path.join(path, member.name)`; if any
check fails the function raises before `extractall`, otherwise
`extractall` writes exactly the filtered members. -/
def safe_extract (dest : PyStr) (allMembers kept : List PyStr) : ExtractOutcome :=
  if allMembers.any (fun m => !(is_within_directory dest (pyJoin dest m))) then
    ExtractOutcome.traversalError
  else ExtractOutcome.extracted kept

/-- Result of `fetch_extract` on one archive: the warnings of the member
filter and the extraction outcome.  (`__fetch_extract_remove__` only
pre-deletes target files and returns the member list unchanged; it does
not affect which members are extracted.) -/
structure ExtractRun where
  warned : List PyStr
  outcome : ExtractOutcome
  deriving DecidableEq, Repr

/-- Translation of the member-handling pipeline of `fetch_extract`
(lines 804-828): filter the members, then run `safe_extract` over the
full member list with the filtered list as the extraction set. -/
def fetch_extract (dest : PyStr) (members : List PyStr) : ExtractRun :=
  let mf := fetchCheckMembers members
  { warned := mf.warned, outcome := safe_extract dest members mf.kept }


/-! ### Download verification (`__fetch_check__`, lines 542-651)

The function is modelled from the point where the `MANIFEST` refetch
attempt has finished: `manifest` is the parsed content of the on-disk
`MANIFEST` file (`none` when the file is still absent, e.g. on a
non-canonical server where no refetch happens), and `disk` maps each
file name to the SHA-256 hex digest of its on-disk content (`none` when
the file is absent).  Python dict access `hashes[f]` on a missing key is
the unhandled `KeyError` abort; a `logit` call at level `EXCEPTION` is
the fatal abort. -/

/-- Abort modes of `__fetch_check__`. -/
inductive CheckAbort where
  | fatalMsg (msg : PyStr)
  | keyError (f : PyStr)
  deriving DecidableEq, Repr

/-- Loop state of `__fetch_check__`: the files classified missing so far
and the files already extracted (in order). -/
structure CheckSt where
  missing : List PyStr
  extracted : List PyStr
  deriving DecidableEq, Repr

/-- Message of the fatal second-failure `logit` (lines 615-616, 633). -/
def sTooMany : PyStr := "Too many failed verifications!".toList

/-- Body of the `for f in self.files` loop of `__fetch_check__`
(lines 582-649): skip `MANIFEST` and (for a hardened lineage)
`lib32.txz`; for a file in the checked list `uList`, classify it missing
on absence or digest mismatch (fatal when the `_missing` flag is set;
`KeyError` when the manifest has no entry for it); then, whenever no
file is missing so far, extract the file. -/
def checkStep (hardened missingFlag : Bool) (hashes : List (PyStr × PyStr))
    (disk : PyStr → Option PyStr) (uList : List PyStr) (st : CheckSt) (f : PyStr) :
    Except (CheckAbort × CheckSt) CheckSt :=
  if f = pyMANIFEST then Except.ok st
  else if hardened && (f == pyLib32) then Except.ok st
  else
    let verified : Except (CheckAbort × CheckSt) CheckSt :=
      if f ∈ uList then
        match disk f with
        | none =>
          if missingFlag then Except.error (CheckAbort.fatalMsg sTooMany, st)
          else Except.ok { st with missing := st.missing ++ [f] }
        | some digest =>
          match List.lookup f hashes with
          | none => Except.error (CheckAbort.keyError f, st)
          | some expected =>
            if expected = digest then Except.ok st
            else if missingFlag then Except.error (CheckAbort.fatalMsg sTooMany, st)
            else Except.ok { st with missing := st.missing ++ [f] }
      else Except.ok st
    match verified with
    | Except.error e => Except.error e
    | Except.ok st1 =>
      if st1.missing = [] then Except.ok { st1 with extracted := st1.extracted ++ [f] }
      else Except.ok st1

/-- Observable result of one `__fetch_check__` pass. -/
inductive CheckOutcome where
  | ok (missing : List PyStr)
  | fatalMsg (msg : PyStr)
  | keyError (f : PyStr)
  deriving DecidableEq, Repr

/-- One `__fetch_check__` pass: its outcome and the extraction events it
performed (in order). -/
structure CheckRun where
  outcome : CheckOutcome
  extracted : List PyStr
  deriving DecidableEq, Repr

/-- Translation of `__fetch_check__`: parse the manifest (an absent
manifest leaves the hash map empty and pre-classifies `MANIFEST` as
missing, lines 574-580), then run the per-file loop over `selfFiles`
checking the files listed in `uList`. -/
def fetchCheck (selfFiles uList : List PyStr) (hardened : Bool)
    (manifest : Option (List (PyStr × PyStr))) (disk : PyStr → Option PyStr)
    (missingFlag : Bool) : CheckRun :=
  let hashes := manifest.getD []
  let st0 : CheckSt :=
    { missing := if manifest.isNone then [pyMANIFEST] else [], extracted := [] }
  match List.foldlM (checkStep hardened missingFlag hashes disk uList) st0 selfFiles with
  | Except.ok st => { outcome := CheckOutcome.ok st.missing, extracted := st.extracted }
  | Except.error (CheckAbort.fatalMsg m, st) =>
    { outcome := CheckOutcome.fatalMsg m, extracted := st.extracted }
  | Except.error (CheckAbort.keyError f, st) =>
    { outcome := CheckOutcome.keyError f, extracted := st.extracted }

/-- Decides whether a file fails verification against the given manifest
map and on-disk digests: absent, unlisted, or digest mismatch. -/
def fileFails (hashes : List (PyStr × PyStr)) (disk : PyStr → Option PyStr)
    (f : PyStr) : Bool :=
  match disk f with
  | none => true
  | some digest =>
    match List.lookup f hashes with
    | none => true
    | some expected => expected != digest

/-- Files actually examined by the loop of `__fetch_check__`: `MANIFEST`
is always skipped, `lib32.txz` is skipped for a hardened lineage. -/
def processedFiles (selfFiles : List PyStr) (hardened : Bool) : List PyStr :=
  selfFiles.filter (fun f => !(f == pyMANIFEST) && !(hardened && (f == pyLib32)))

/-- Trace of the download/verify phase of `fetch_http_release`
(lines 427-432): the argument lists of the `fetch_download` calls made,
and the one or two verification passes. -/
structure VerifyTrace where
  downloads : List (List PyStr)
  check1 : CheckRun
  check2 : Option CheckRun
  deriving Repr

/-- Files written by one `fetch_download(_list, ...)` call over HTTP
(lines 670-675): a hardened lineage skips `lib32.txz`. -/
def downloadList (hardened : Bool) (l : List PyStr) : List PyStr :=
  if hardened then l.filter (fun f => !(f == pyLib32)) else l

/-- Translation of lines 427-432 of `fetch_http_release`: download the
file set (only when the download dataset is fresh, per `fetch_download`
lines 656-667), verify, and — when files are missing — redownload
exactly the missing files and re-verify with the `_missing` flag set.
`disk1`/`disk2` are the on-disk digests seen by the first and second
verification passes. -/
def fetchHttpVerify (selfFiles : List PyStr) (hardened : Bool)
    (manifest : Option (List (PyStr × PyStr)))
    (disk1 disk2 : PyStr → Option PyStr) (fresh : Bool) : VerifyTrace :=
  let dl1 := if fresh then [downloadList hardened selfFiles] else []
  let c1 := fetchCheck selfFiles selfFiles hardened manifest disk1 false
  match c1.outcome with
  | CheckOutcome.ok missing =>
    if missing = [] then { downloads := dl1, check1 := c1, check2 := none }
    else
      { downloads := dl1 ++ [downloadList hardened missing],
        check1 := c1,
        check2 := some (fetchCheck selfFiles missing hardened manifest disk2 true) }
  | _ => { downloads := dl1, check1 := c1, check2 := none }

/-- Number of times file `f` is downloaded in a verify trace. -/
def countDownloads (f : PyStr) (tr : VerifyTrace) : Nat :=
  (tr.downloads.map (fun l => l.count f)).sum

/-! ### Local-directory fetch (`fetch_release`, file branch, lines 208-281) -/

/-- Events of the local-directory branch of `fetch_release`. -/
inductive RelEvent where
  | dsCreate
  | dsDestroy
  | copyFile (f : PyStr)
  | extractFile (f : PyStr)
  | errorExc (msg : PyStr)
  deriving DecidableEq, Repr

/-- Fragment `" is a required file!"` of the missing-file message. -/
def sRequiredA : PyStr := " is a required file!".toList

/-- Fragment `".txz is a required file!"` of the missing-file message. -/
def sRequiredB : PyStr := ".txz is a required file!".toList

/-- Fragment `"\nPlease place it in "` of the missing-file message. -/
def sPlaceIt : PyStr := "\nPlease place it in ".toList

/-- Error message built at lines 252-259 for a required file missing
from `<root_dir>/<release>`. -/
def missingFileMsg (rootDir release f : PyStr) : PyStr :=
  (if f = pyMANIFEST then f ++ sRequiredA else f ++ sRequiredB)
    ++ sPlaceIt ++ rootDir ++ '/' :: release

/-- Per-file loop of the local-directory branch (lines 244-281): a
missing file unmounts and deletes the download dataset and raises the
error; a present file is copied and (except `MANIFEST`) extracted. -/
def fetchReleaseFileLoop (rootDir release : PyStr) (present : PyStr → Bool) :
    List PyStr → List RelEvent
  | [] => []
  | f :: fs =>
    if present f then
      RelEvent.copyFile f ::
        ((if f = pyMANIFEST then [] else [RelEvent.extractFile f]) ++
          fetchReleaseFileLoop rootDir release present fs)
    else [RelEvent.dsDestroy, RelEvent.errorExc (missingFileMsg rootDir release f)]

/-- Tracks download-dataset existence through an event list. -/
def dsAfter (b : Bool) : List RelEvent → Bool
  | [] => b
  | RelEvent.dsCreate :: evs => dsAfter true evs
  | RelEvent.dsDestroy :: evs => dsAfter false evs
  | _ :: evs => dsAfter b evs

/-- Result of the local-directory branch: its event trace and whether
the download dataset exists afterwards. -/
structure RelRun where
  events : List RelEvent
  datasetExists : Bool
  deriving DecidableEq, Repr

/-- Translation of the local-directory branch of `fetch_release`
(lines 233-281): create-and-mount the download dataset if absent
(lines 235-242), then run the per-file loop. -/
def fetch_release_file (rootDir release : PyStr) (files : List PyStr)
    (present : PyStr → Bool) (dsExists : Bool) : RelRun :=
  let evs := (if dsExists then [] else [RelEvent.dsCreate]) ++
    fetchReleaseFileLoop rootDir release present files
  { events := evs, datasetExists := dsAfter dsExists evs }

/-- Formalization of the claim's ordering statement for the counter
example: some dataset creation happens strictly before the error. -/
def createBeforeError (evs : List RelEvent) : Prop :=
  ∃ i j msg, i < j ∧ evs.get? i = some RelEvent.dsCreate ∧
    evs.get? j = some (RelEvent.errorExc msg)

/-! ### Constructor configuration (`IOCFetch.__init__`, lines 59-107)
and backend dispatch (`fetch_release`, lines 199-288) -/

/-- Literal `"-stable"`. -/
def sStableLower : PyStr := "-stable".toList

/-- Literal `"-STABLE"`. -/
def sSTABLE : PyStr := "-STABLE".toList

/-- Configuration state relevant to backend selection after
`IOCFetch.__init__`. -/
structure FetchConfig where
  release : Option PyStr
  http : Bool
  fileFlag : Bool
  hardened : Bool
  deriving DecidableEq, Repr

/-- Translation of the release/backend handling of `IOCFetch.__init__`
(lines 74-77 and 96-102): upper-case the release; a hardened lineage
forces `http = True` and rewrites the release to
`f"{self.release[:2]}-stable".upper()`. -/
def iocFetchInit (release : Option PyStr) (http fileFlag hardened : Bool) :
    FetchConfig :=
  let rel0 := release.map pyUpper
  if hardened then
    { release := rel0.map (fun r => pyUpper (r.take 2 ++ sStableLower)),
      http := true, fileFlag := fileFlag, hardened := hardened }
  else
    { release := rel0, http := http, fileFlag := fileFlag, hardened := hardened }

/-- The three transport backends. -/
inductive Backend where
  | httpB
  | fileB
  | ftpB
  deriving DecidableEq, Repr

/-- Translation of the backend dispatch of `fetch_release`
(lines 199-288): `self.http` wins, then `self._file`, else FTP. -/
def fetch_release_backend (cfg : FetchConfig) : Backend :=
  if cfg.http then Backend.httpB
  else if cfg.fileFlag then Backend.fileB
  else Backend.ftpB

/-! ### Plugin property merge (`__fetch_plugin_props__`, lines 1029-1086) -/

/-- Key of a `key=value` property string: `p.split("=")[0]`. -/
def propKey (p : PyStr) : PyStr := p.takeWhile (fun c => !(c == '='))

/-- Translation of the merge loop of `__fetch_plugin_props__`
(lines 1038-1045): each JSON property is appended as `f"{p}={v}"` unless
its key already occurs among the keys of the (evolving) property
list. -/
def fetchPluginProps (props : List PyStr) (jsonProps : List (PyStr × PyStr)) :
    List PyStr :=
  jsonProps.foldl
    (fun acc pv =>
      if pv.1 ∈ acc.map propKey then acc
      else acc ++ [pv.1 ++ '=' :: pv.2])
    props

/-! ### Release selection (`__fetch_validate_release__`, lines 150-197)

The `logit EXCEPTION` messages are not modelled (only that the call
aborts); `hostRelease` abstracts `__fetch_host_release__`, which reads
`os.uname()`. -/

/-- Model of Python `int(s)` on a decimal string: optional surrounding
whitespace, optional sign, one or more digits; `none` is `ValueError`. -/
def pyStrip (s : PyStr) : PyStr :=
  (((s.dropWhile Char.isWhitespace).reverse).dropWhile Char.isWhitespace).reverse

/-- Value of a nonempty all-digit string. -/
def digitsVal (ds : PyStr) : Option Nat :=
  if ds ≠ [] ∧ ds.all Char.isDigit then
    some (ds.foldl (fun a c => a * 10 + (c.toNat - 48)) 0)
  else none

/-- Model of Python `int(s)` (decimal). -/
def pyIntParse (s : PyStr) : Option Int :=
  match pyStrip s with
  | '+' :: ds => (digitsVal ds).map Int.ofNat
  | '-' :: ds => (digitsVal ds).map (fun n => -(Int.ofNat n))
  | ds => (digitsVal ds).map Int.ofNat

/-- Model of Python list indexing `l[i]` (negative indices count from
the end); `none` is `IndexError`. -/
def pyIndexGet (l : List PyStr) (i : Int) : Option PyStr :=
  if 0 ≤ i then l.get? i.toNat
  else if 0 ≤ (l.length : Int) + i then l.get? ((l.length : Int) + i).toNat
  else none

/-- Observable outcome of `__fetch_validate_release__`. -/
inductive ValOutcome where
  | exitProc
  | chosen (r : PyStr)
  | failure
  deriving DecidableEq, Repr

/-- Which interpretation the function applied to the input: the `exit`
command, name-membership validation (`releases.index`), numeric-index
lookup (`releases[int(...)]`), or the host-release fallback. -/
inductive ValRoute where
  | exitR
  | nameR
  | indexR
  | hostR
  deriving DecidableEq, Repr

/-- Result of `__fetch_validate_release__`: the outcome, the route
taken, and whether the hardened flag was set by the fallback. -/
structure ValResult where
  outcome : ValOutcome
  route : ValRoute
  hardenedSet : Bool
  deriving DecidableEq, Repr

/-- Literal `"exit"`. -/
def sExit : PyStr := "exit".toList

/-- Translation of `__fetch_validate_release__` (lines 150-197):
`exit` terminates; a string longer than two characters is validated by
exact membership in the release list; otherwise the string is parsed as
an integer index (an out-of-range index is an error), and on a parse
failure the host release is used instead — returned directly when it is
a `-STABLE` release, validated by membership otherwise. -/
def fetchValidateRelease (input : PyStr) (releases : List PyStr)
    (hostRelease : PyStr) : ValResult :=
  if pyLower input = sExit then ⟨ValOutcome.exitProc, ValRoute.exitR, false⟩
  else if input.length > 2 then
    if input ∈ releases then ⟨ValOutcome.chosen input, ValRoute.nameR, false⟩
    else ⟨ValOutcome.failure, ValRoute.nameR, false⟩
  else
    match pyIntParse input with
    | some i =>
      match pyIndexGet releases i with
      | some r => ⟨ValOutcome.chosen r, ValRoute.indexR, false⟩
      | none => ⟨ValOutcome.failure, ValRoute.indexR, false⟩
    | none =>
      if strHas sSTABLE hostRelease then
        ⟨ValOutcome.chosen hostRelease, ValRoute.hostR, true⟩
      else if hostRelease ∈ releases then
        ⟨ValOutcome.chosen hostRelease, ValRoute.hostR, false⟩
      else ⟨ValOutcome.failure, ValRoute.hostR, false⟩

/-! ### Fingerprint files (`__fetch_plugin_install_packages__`,
lines 1186-1196) -/

/-- Fragment `"function: "` of the fingerprint file. -/
def sFunction : PyStr := "function: ".toList

/-- Fragment `"\nfingerprint: "` of the fingerprint file. -/
def sFingerA : PyStr := "\nfingerprint: ".toList

/-- Content written for one `(function, fingerprint)` pair
(`finger_conf`, lines 1189-1191). -/
def fingerConf (fn fp : PyStr) : PyStr :=
  sFunction ++ fn ++ sFingerA ++ fp ++ ['\n']

/-- State of one repository's fingerprint file: its content (if ever
written) and how many times it was opened for (truncating) writing. -/
structure FingerFile where
  content : Option PyStr
  opens : Nat
  deriving DecidableEq, Repr

/-- Translation of the `for r in repo` loop (lines 1188-1196): each pair
opens the same file `f_file` in mode `"w"` (truncating) and writes its
rendering, so each iteration replaces the previous content. -/
def writeFingerprints (pairs : List (PyStr × PyStr)) : FingerFile :=
  pairs.foldl
    (fun st pr => { content := some (fingerConf pr.1 pr.2), opens := st.opens + 1 })
    { content := none, opens := 0 }

/-! ### Plugin provisioning control flow (`fetch_plugin`, lines 942-950,
and `__fetch_plugin_create__`, lines 1088-1117)

The three provisioning steps are external calls; each is abstracted by
its result: normal return, `KeyboardInterrupt`, or a fatal error (a
`logit EXCEPTION`, which raises and is not caught by the
`except KeyboardInterrupt` clause of `fetch_plugin`). -/

/-- Result of an external provisioning step. -/
inductive PyRes where
  | ok
  | kbInt
  | exc (msg : PyStr)
  deriving DecidableEq, Repr

/-- Events of a plugin provisioning run. -/
inductive PlugEvent where
  | jailCreated
  | destroyJail
  | exitProcess (code : Nat)
  | fatalError (msg : PyStr)
  | installStep
  | postInstallStep
  deriving DecidableEq, Repr

/-- Literal `"none"`. -/
def sNone : PyStr := "none".toList

/-- Literal `"on"`. -/
def sOn : PyStr := "on".toList

/-- Message of the fatal `logit` after the no-address destruction
(line 1112). -/
def sDestroyedPartial : PyStr := "Destroyed partial plugin.".toList

/-- Translation of `__fetch_plugin_create__` (lines 1088-1117): create
the jail, then — when the configuration has no IPv4 address, no IPv6
address and DHCP off — destroy the jail and raise the fatal
"Destroyed partial plugin." error. -/
def fetchPluginCreate (createRes : PyRes) (ip4 ip6 dhcp : PyStr) :
    List PlugEvent × PyRes :=
  match createRes with
  | PyRes.ok =>
    if ip4 = sNone ∧ ip6 = sNone ∧ dhcp ≠ sOn then
      ([PlugEvent.jailCreated, PlugEvent.destroyJail], PyRes.exc sDestroyedPartial)
    else ([PlugEvent.jailCreated], PyRes.ok)
  | r => ([], r)

/-- Translation of the `try`/`except KeyboardInterrupt` block of
`fetch_plugin` (lines 942-950): run create, package installation and
post-install in sequence; a `KeyboardInterrupt` anywhere destroys the
jail and exits with status 1; any other raised error propagates out of
`fetch_plugin` without destruction. -/
def fetch_plugin_run (createRes : PyRes) (ip4 ip6 dhcp : PyStr)
    (installRes postRes : PyRes) : List PlugEvent :=
  let created := fetchPluginCreate createRes ip4 ip6 dhcp
  match created.2 with
  | PyRes.kbInt => created.1 ++ [PlugEvent.destroyJail, PlugEvent.exitProcess 1]
  | PyRes.exc m => created.1 ++ [PlugEvent.fatalError m]
  | PyRes.ok =>
    match installRes with
    | PyRes.kbInt =>
      created.1 ++ [PlugEvent.installStep, PlugEvent.destroyJail, PlugEvent.exitProcess 1]
    | PyRes.exc m => created.1 ++ [PlugEvent.installStep, PlugEvent.fatalError m]
    | PyRes.ok =>
      match postRes with
      | PyRes.kbInt =>
        created.1 ++ [PlugEvent.installStep, PlugEvent.postInstallStep,
          PlugEvent.destroyJail, PlugEvent.exitProcess 1]
      | PyRes.exc m =>
        created.1 ++ [PlugEvent.installStep, PlugEvent.postInstallStep,
          PlugEvent.fatalError m]
      | PyRes.ok => created.1 ++ [PlugEvent.installStep, PlugEvent.postInstallStep]

/-! ### Concrete instances used by witnesses and counterexamples -/

/-- Destination directory used in concrete extraction scenarios. -/
def cexDest : PyStr := "/rel/root".toList

/-- Archive member resolving to a sibling of the destination whose path
extends the destination character-wise. -/
def cexSibling : PyStr := "../rootX".toList

/-- Literal `"base.txz"`. -/
def sBase : PyStr := "base.txz".toList

/-- Literal `"doc.txz"`. -/
def sDoc : PyStr := "doc.txz".toList

/-- Release identifier used in concrete scenarios. -/
def relName : PyStr := "11.2-RELEASE".toList

/-- A digest value used in concrete scenarios. -/
def digestGood : PyStr := "aa11".toList

/-- Another digest value used in concrete scenarios. -/
def digestBad : PyStr := "bb22".toList

/-- Root directory used in concrete local-fetch scenarios. -/
def cexRootDir : PyStr := "/tank/rel".toList

/-- Two-character non-numeric selection input. -/
def cexInputAB : PyStr := "ab".toList

/-- IPv4 address used in concrete plugin scenarios. -/
def cexIp : PyStr := "10.0.0.1".toList

/-- Message of the fatal kernel-module `logit` (line 1132). -/
def sModuleNotFound : PyStr := "Module not found!".toList

/-- Manifest map used in concrete verification scenarios: `base.txz`
hashes to `digestGood`, `doc.txz` hashes to `digestGood`. -/
def cexManifest : List (PyStr × PyStr) := [(sBase, digestGood), (sDoc, digestGood)]

/-- Disk state where `base.txz` is corrupt and `doc.txz` is good. -/
def cexDiskBaseBad : PyStr → Option PyStr :=
  fun f => if f = sBase then some digestBad else
    if f = sDoc then some digestGood else none

/-- Disk state where `base.txz` is good and `doc.txz` is corrupt. -/
def cexDiskDocBad : PyStr → Option PyStr :=
  fun f => if f = sBase then some digestGood else
    if f = sDoc then some digestBad else none

/-- Default file set restricted to the three files of the concrete
scenarios. -/
def cexFiles : List PyStr := [pyMANIFEST, sBase, sDoc]

/-- Decides whether a file is both in the checked list and failing
verification — exactly the condition under which the loop of
`__fetch_check__` classifies it missing. -/
def checkedFails (hashes : List (PyStr × PyStr)) (disk : PyStr → Option PyStr)
    (uList : List PyStr) (f : PyStr) : Bool :=
  decide (f ∈ uList) && fileFails hashes disk f

/-- Disk state where both `base.txz` and `doc.txz` verify. -/
def cexDiskAllGood : PyStr → Option PyStr :=
  fun f => if f = sBase then some digestGood else
    if f = sDoc then some digestGood else none

/-- Well-formed relative archive member used by witnesses. -/
def cexGood : PyStr := "./etc/rc".toList

/-- Absolute-path archive member used by witnesses. -/
def cexAbs : PyStr := "/etc/pw".toList

/-- One-digit selection input. -/
def cexInput0 : PyStr := "0".toList

/-- Caller-supplied property used in merge scenarios. -/
def cexUserProp : PyStr := "vnet=off".toList

/-- Property key `"vnet"`. -/
def cexKeyVnet : PyStr := "vnet".toList

/-- Property key `"dhcp"`. -/
def cexKeyDhcp : PyStr := "dhcp".toList

/-- Descriptor-declared properties used in merge scenarios: `vnet`
collides with the caller's property, `dhcp` does not. -/
def cexJsonProps : List (PyStr × PyStr) := [(cexKeyVnet, sOn), (cexKeyDhcp, sOn)]

/-- Fingerprint function name used in concrete scenarios. -/
def cexFn : PyStr := "sha256".toList

/-- First fingerprint value. -/
def cexFp1 : PyStr := "abc1".toList

/-- Second fingerprint value. -/
def cexFp2 : PyStr := "abc2".toList

/-- Two-pair fingerprint list of one trusted repository. -/
def cexPairs : List (PyStr × PyStr) := [(cexFn, cexFp1), (cexFn, cexFp2)]

/-- Normal path component: nonempty, not `"."`, not `".."`, and free of
`'/'` — the shape of every component kept by `normAcc`. -/
def goodComp (x : PyStr) : Prop :=
  x ≠ [] ∧ x ≠ pyDot ∧ x ≠ pyDotDot ∧ '/' ∉ x

/-! ## Theorems -/

/-! ### Generic string lemmas -/

lemma isPrefixOf_app (a b : PyStr) : List.isPrefixOf a (a ++ b) = true := by
  induction a with
  | nil => simp [List.isPrefixOf]
  | cons c cs ih => simp [List.isPrefixOf, ih]

lemma strHas_of_pre {pat s : PyStr} (h : List.isPrefixOf pat s = true) :
    strHas pat s = true := by
  cases s with
  | nil => simpa [strHas] using h
  | cons c rest => simp [strHas, h]

lemma strHas_cons_tail {pat rest : PyStr} (c : Char) (h : strHas pat rest = true) :
    strHas pat (c :: rest) = true := by
  simp [strHas, h]

lemma strHas_app (pat a b : PyStr) : strHas pat (a ++ (pat ++ b)) = true := by
  induction a with
  | nil => exact strHas_of_pre (isPrefixOf_app pat b)
  | cons c cs ih => exact strHas_cons_tail c ih

lemma strHas_cons_false {pat : PyStr} {c : Char} {rest : PyStr}
    (h : strHas pat (c :: rest) = false) : strHas pat rest = false := by
  simp [strHas] at h
  exact h.2

lemma commonPref_self_app (s t : PyStr) : commonPref s (s ++ t) = s := by
  induction s with
  | nil => cases t <;> simp [commonPref]
  | cons x xs ih => simp [commonPref, ih]

/-! ### Path model lemmas -/

lemma splitSlash_ne_nil (p : PyStr) : splitSlash p ≠ [] := by
  cases p with
  | nil => simp [splitSlash]
  | cons c cs => by_cases h : c = '/' <;> simp [splitSlash, h]

lemma splitSlash_headI (p : PyStr) :
    (splitSlash p).headI = p.takeWhile (fun c => !(c == '/')) := by
  induction p with
  | nil => simp [splitSlash]
  | cons c cs ih =>
    by_cases h : c = '/'
    · simp [splitSlash, h, List.takeWhile_cons]
    · simp [splitSlash, h, List.takeWhile_cons, ih]

lemma splitSlash_app (a b : PyStr) :
    splitSlash (a ++ '/' :: b) = splitSlash a ++ splitSlash b := by
  induction a with
  | nil => simp [splitSlash]
  | cons c cs ih =>
    by_cases h : c = '/'
    · simp [splitSlash, h, ih]
    · cases hcs : splitSlash cs with
      | nil => exact absurd hcs (splitSlash_ne_nil cs)
      | cons h0 t0 => simp [splitSlash, h, ih, hcs]

lemma splitSlash_no_slash (p : PyStr) : ∀ comp ∈ splitSlash p, '/' ∉ comp := by
  induction p with
  | nil =>
    intro comp hc
    simp [splitSlash] at hc
    simp [hc]
  | cons c cs ih =>
    intro comp hc
    by_cases h : c = '/'
    · simp [splitSlash, h] at hc
      rcases hc with rfl | hc
      · simp
      · exact ih comp hc
    · simp [splitSlash, h] at hc
      rcases hc with rfl | hc
      · intro hmem
        rcases List.mem_cons.mp hmem with he | hmem
        · exact h he.symm
        · rw [splitSlash_headI cs] at hmem
          have := List.mem_takeWhile_imp hmem
          simp at this
      · exact ih comp (List.mem_of_mem_tail hc)

lemma splitSlash_of_no_slash (p : PyStr) (h : '/' ∉ p) : splitSlash p = [p] := by
  induction p with
  | nil => simp [splitSlash]
  | cons c cs ih =>
    have hc : ¬(c = '/') := fun e => h (by rw [e]; exact List.mem_cons_self _ _)
    have hcs : '/' ∉ cs := fun e => h (List.mem_cons_of_mem _ e)
    simp [splitSlash, hc, ih hcs]

lemma splitSlash_no_dotdot (p : PyStr) (h : strHas pyDotDot p = false) :
    ∀ comp ∈ splitSlash p, comp ≠ pyDotDot := by
  induction p with
  | nil =>
    intro comp hc
    simp [splitSlash] at hc
    simp [hc, pyDotDot]
  | cons c cs ih =>
    have hrest : strHas pyDotDot cs = false := strHas_cons_false h
    intro comp hc
    by_cases hsl : c = '/'
    · simp [splitSlash, hsl] at hc
      rcases hc with rfl | hc
      · simp [pyDotDot]
      · exact ih hrest comp hc
    · simp [splitSlash, hsl] at hc
      rcases hc with rfl | hc
      · intro he
        have hdd : pyDotDot = ['.', '.'] := rfl
        rw [hdd] at he
        have hc2 : c = '.' := (List.cons.injEq _ _ _ _ ▸ he).1
        have hX : (splitSlash cs).headI = ['.'] := (List.cons.injEq _ _ _ _ ▸ he).2
        rw [splitSlash_headI cs] at hX
        cases cs with
        | nil => simp [List.takeWhile] at hX
        | cons d ds =>
          rw [List.takeWhile_cons] at hX
          by_cases hd : d = '/'
          · simp [hd] at hX
          · have hd2 : d = '.' := by
              simp [hd] at hX
              exact hX.1
            subst hc2
            subst hd2
            simp [strHas, List.isPrefixOf, pyDotDot] at h
      · exact ih hrest comp (List.mem_of_mem_tail hc)

lemma normAcc_cons_skip (acc : List PyStr) (c : PyStr) (cs : List PyStr)
    (h : c = [] ∨ c = pyDot) : normAcc acc (c :: cs) = normAcc acc cs := by
  simp only [normAcc]
  rw [if_pos h]

lemma normAcc_cons_pop (acc : List PyStr) (c : PyStr) (cs : List PyStr)
    (h1 : ¬(c = [] ∨ c = pyDot)) (h2 : c = pyDotDot) :
    normAcc acc (c :: cs) = normAcc acc.dropLast cs := by
  simp only [normAcc]
  rw [if_neg h1, if_pos h2]

lemma normAcc_cons_push (acc : List PyStr) (c : PyStr) (cs : List PyStr)
    (h1 : ¬(c = [] ∨ c = pyDot)) (h2 : c ≠ pyDotDot) :
    normAcc acc (c :: cs) = normAcc (acc ++ [c]) cs := by
  simp only [normAcc]
  rw [if_neg h1, if_neg h2]

lemma normAcc_app (acc l1 l2 : List PyStr) :
    normAcc acc (l1 ++ l2) = normAcc (normAcc acc l1) l2 := by
  induction l1 generalizing acc with
  | nil => simp [normAcc]
  | cons c cs ih =>
    by_cases h1 : c = [] ∨ c = pyDot
    · rw [List.cons_append, normAcc_cons_skip _ _ _ h1, normAcc_cons_skip _ _ _ h1, ih]
    · by_cases h2 : c = pyDotDot
      · rw [List.cons_append, normAcc_cons_pop _ _ _ h1 h2, normAcc_cons_pop _ _ _ h1 h2, ih]
      · rw [List.cons_append, normAcc_cons_push _ _ _ h1 h2, normAcc_cons_push _ _ _ h1 h2, ih]

lemma normAcc_good (l : List PyStr) (acc : List PyStr)
    (hacc : ∀ x ∈ acc, goodComp x) (hl : ∀ c ∈ l, '/' ∉ c) :
    ∀ x ∈ normAcc acc l, goodComp x := by
  induction l generalizing acc with
  | nil => simpa [normAcc] using hacc
  | cons c cs ih =>
    have hlc : '/' ∉ c := hl c (List.mem_cons_self _ _)
    have hlcs : ∀ x ∈ cs, '/' ∉ x := fun x hx => hl x (List.mem_cons_of_mem _ hx)
    by_cases h1 : c = [] ∨ c = pyDot
    · rw [normAcc_cons_skip _ _ _ h1]
      exact ih acc hacc hlcs
    · by_cases h2 : c = pyDotDot
      · rw [normAcc_cons_pop _ _ _ h1 h2]
        exact ih _ (fun x hx => hacc x (List.mem_of_mem_dropLast hx)) hlcs
      · rw [normAcc_cons_push _ _ _ h1 h2]
        apply ih _ _ hlcs
        intro x hx
        rcases List.mem_append.mp hx with hx | hx
        · exact hacc x hx
        · have hxc : x = c := by simpa using hx
          subst hxc
          push_neg at h1
          exact ⟨h1.1, h1.2, h2, hlc⟩

lemma normAcc_normal (l : List PyStr) (acc : List PyStr)
    (h : ∀ c ∈ l, goodComp c) : normAcc acc l = acc ++ l := by
  induction l generalizing acc with
  | nil => simp [normAcc]
  | cons c cs ih =>
    have hc := h c (List.mem_cons_self _ _)
    have h1 : ¬(c = [] ∨ c = pyDot) := by
      rintro (e | e)
      · exact hc.1 e
      · exact hc.2.1 e
    rw [normAcc_cons_push _ _ _ h1 hc.2.2.1]
    rw [ih _ (fun x hx => h x (List.mem_cons_of_mem _ hx))]
    simp

lemma normAcc_no_dotdot (l : List PyStr) (acc : List PyStr)
    (h : ∀ c ∈ l, c ≠ pyDotDot) : normAcc acc l = acc ++ normAcc [] l := by
  induction l generalizing acc with
  | nil => simp [normAcc]
  | cons c cs ih =>
    have hc : c ≠ pyDotDot := h c (List.mem_cons_self _ _)
    have hcs : ∀ x ∈ cs, x ≠ pyDotDot := fun x hx => h x (List.mem_cons_of_mem _ hx)
    by_cases h1 : c = [] ∨ c = pyDot
    · rw [normAcc_cons_skip _ _ _ h1, normAcc_cons_skip _ _ _ h1]
      exact ih acc hcs
    · rw [normAcc_cons_push _ _ _ h1 hc, normAcc_cons_push _ _ _ h1 hc]
      rw [ih (acc ++ [c]) hcs, ih ([] ++ [c]) hcs]
      simp

lemma renderFold_go (a : PyStr) (comps : List PyStr) :
    comps.foldl (fun acc c => acc ++ '/' :: c) a = a ++ renderFold comps := by
  induction comps generalizing a with
  | nil => simp [renderFold]
  | cons c cs ih =>
    simp only [renderFold, List.foldl_cons, List.nil_append]
    rw [ih (a ++ '/' :: c), ih ('/' :: c)]
    simp

lemma renderFold_app (l1 l2 : List PyStr) :
    renderFold (l1 ++ l2) = renderFold l1 ++ renderFold l2 := by
  unfold renderFold
  rw [List.foldl_append]
  exact renderFold_go _ l2

lemma renderFold_cons (c : PyStr) (cs : List PyStr) :
    renderFold (c :: cs) = '/' :: (c ++ renderFold cs) := by
  have h : renderFold (c :: cs) = renderFold [c] ++ renderFold cs := by
    have := renderFold_app [c] cs
    simpa using this
  rw [h]
  simp [renderFold]

lemma renderAbs_head (comps : List PyStr) : ∃ r, renderAbs comps = '/' :: r := by
  cases comps with
  | nil => exact ⟨[], rfl⟩
  | cons c cs =>
    refine ⟨c ++ renderFold cs, ?_⟩
    simp [renderAbs, renderFold_cons]

lemma splitSlash_renderFold (c : PyStr) (cs : List PyStr)
    (h : ∀ x ∈ c :: cs, goodComp x) :
    splitSlash (renderFold (c :: cs)) = [] :: c :: cs := by
  induction cs generalizing c with
  | nil =>
    have hc := h c (List.mem_cons_self _ _)
    rw [renderFold_cons]
    simp only [renderFold, List.foldl_nil, List.append_nil]
    simp [splitSlash, splitSlash_of_no_slash c hc.2.2.2]
  | cons e es ih =>
    have hc := h c (List.mem_cons_self _ _)
    have he : ∀ x ∈ e :: es, goodComp x :=
      fun x hx => h x (List.mem_cons_of_mem _ hx)
    have h1 := ih e he
    rw [renderFold_cons] at h1
    have hpeel : splitSlash ('/' :: (e ++ renderFold es)) =
        [] :: splitSlash (e ++ renderFold es) := by
      simp [splitSlash]
    rw [hpeel] at h1
    have h2 : splitSlash (e ++ renderFold es) = e :: es := by
      injection h1
    rw [renderFold_cons, renderFold_cons]
    have hpeel2 : splitSlash ('/' :: (c ++ '/' :: (e ++ renderFold es))) =
        [] :: splitSlash (c ++ '/' :: (e ++ renderFold es)) := by
      simp [splitSlash]
    rw [hpeel2, splitSlash_app c (e ++ renderFold es),
      splitSlash_of_no_slash c hc.2.2.2, h2]
    rfl

lemma renderFold_getLast (c : PyStr) (cs : List PyStr)
    (h : ∀ x ∈ c :: cs, goodComp x) :
    (renderFold (c :: cs)).getLast? ≠ some '/' := by
  rcases List.eq_nil_or_concat (c :: cs) with he | ⟨L, b, he⟩
  · simp at he
  · rw [he, List.concat_eq_append, renderFold_app]
    have hb : goodComp b := by
      apply h
      rw [he, List.concat_eq_append]
      simp
    rw [List.getLast?_append]
    have hb1 : renderFold [b] = '/' :: b := by
      simp [renderFold]
    rw [hb1]
    cases b with
    | nil => exact absurd rfl hb.1
    | cons x xs =>
      rw [List.getLast?_cons_cons]
      intro hcontra
      have hsome : ((x :: xs).getLast?).or (renderFold L).getLast? =
          (x :: xs).getLast? := by
        cases hg : (x :: xs).getLast? with
        | none => simp [List.getLast?] at hg
        | some y => simp
      rw [hsome] at hcontra
      have hy : '/' ∈ x :: xs := List.mem_of_mem_getLast? hcontra
      exact hb.2.2.2 hy

lemma isPrefixOf_dotSlash {m : PyStr} (h : List.isPrefixOf pyDotSlash m = true) :
    ∃ r, m = '.' :: '/' :: r := by
  cases m with
  | nil => simp [pyDotSlash, List.isPrefixOf] at h
  | cons a rest =>
    cases rest with
    | nil => simp [pyDotSlash, List.isPrefixOf] at h
    | cons b rest2 =>
      have hd : pyDotSlash = ['.', '/'] := rfl
      rw [hd] at h
      simp [List.isPrefixOf] at h
      exact ⟨rest2, by rw [h.1, h.2]⟩

/-- Core containment fact: when the destination is a normalized absolute
path, every member that starts with `"./"` and contains no `".."`
produces a target that passes `is_within_directory`. -/
lemma within_of_dotSlash (dest m : PyStr) (hdest : pyAbspath dest = dest)
    (hpre : List.isPrefixOf pyDotSlash m = true)
    (hdd : strHas pyDotDot m = false) :
    is_within_directory dest (pyJoin dest m) = true := by
  obtain ⟨m', rfl⟩ := isPrefixOf_dotSlash hpre
  have hm'dd : strHas pyDotDot m' = false :=
    strHas_cons_false (strHas_cons_false hdd)
  have hnabs : List.isPrefixOf ['/'] ('.' :: '/' :: m') = false := by
    simp [List.isPrefixOf]
  have hsplitm : splitSlash ('.' :: '/' :: m') = ['.'] :: splitSlash m' := by
    cases hs : splitSlash m' with
    | nil => exact absurd hs (splitSlash_ne_nil m')
    | cons h0 t0 => simp [splitSlash, hs]
  have hDgood : ∀ x ∈ normAcc [] (splitSlash dest), goodComp x :=
    normAcc_good (splitSlash dest) [] (by intro x hx; simp at hx)
      (splitSlash_no_slash dest)
  have hm'dd2 : ∀ comp ∈ splitSlash m', comp ≠ pyDotDot :=
    splitSlash_no_dotdot m' hm'dd
  cases hD : normAcc [] (splitSlash dest) with
  | nil =>
    have hdestS : dest = ['/'] := by
      rw [← hdest]
      unfold pyAbspath
      rw [hD]
      rfl
    have hjoin : pyJoin dest ('.' :: '/' :: m') = '/' :: '.' :: '/' :: m' := by
      unfold pyJoin
      rw [hnabs]
      simp only [Bool.false_eq_true, if_false]
      rw [if_pos]
      · rw [hdestS]; rfl
      · right; rw [hdestS]; rfl
    rw [hjoin]
    unfold is_within_directory
    rw [hdest]
    have htargetsplit : splitSlash ('/' :: '.' :: '/' :: m') =
        [] :: ['.'] :: splitSlash m' := by
      rw [show ('/' :: '.' :: '/' :: m') = '/' :: ('.' :: '/' :: m') from rfl]
      simp [splitSlash, hsplitm]
    unfold pyAbspath
    rw [htargetsplit]
    rw [normAcc_cons_skip _ _ _ (Or.inl rfl),
      normAcc_cons_skip [] ['.'] (splitSlash m') (Or.inr (by decide))]
    obtain ⟨r, hr⟩ := renderAbs_head (normAcc [] (splitSlash m'))
    rw [hr, hdestS]
    simp [commonPref]
  | cons d ds =>
    have hDg : ∀ x ∈ d :: ds, goodComp x := by
      rw [← hD]; exact hDgood
    have hdestS : dest = renderFold (d :: ds) := by
      rw [← hdest]
      unfold pyAbspath
      rw [hD]
      simp [renderAbs]
    have hjoin : pyJoin dest ('.' :: '/' :: m') =
        dest ++ '/' :: '.' :: '/' :: m' := by
      unfold pyJoin
      rw [hnabs]
      simp only [Bool.false_eq_true, if_false]
      rw [if_neg]
      rintro (he | he)
      · rw [hdestS, renderFold_cons] at he
        exact absurd he (by simp)
      · rw [hdestS] at he
        exact renderFold_getLast d ds hDg he
    rw [hjoin]
    unfold is_within_directory
    rw [hdest]
    have htargetsplit : splitSlash (dest ++ '/' :: '.' :: '/' :: m') =
        ([] :: d :: ds) ++ ['.'] :: splitSlash m' := by
      rw [splitSlash_app, hsplitm, hdestS, splitSlash_renderFold d ds hDg]
    unfold pyAbspath
    rw [htargetsplit]
    rw [show (([] : PyStr) :: d :: ds) ++ ['.'] :: splitSlash m' =
      ([] : PyStr) :: ((d :: ds) ++ ['.'] :: splitSlash m') from rfl]
    rw [normAcc_cons_skip _ _ _ (Or.inl rfl)]
    rw [normAcc_app]
    rw [normAcc_normal (d :: ds) [] hDg]
    rw [normAcc_cons_skip _ ['.'] (splitSlash m') (Or.inr (by decide))]
    rw [normAcc_no_dotdot (splitSlash m') _ hm'dd2]
    simp only [List.nil_append]
    have hne : ((d :: ds) ++ normAcc [] (splitSlash m')) ≠ [] := by simp
    rw [show renderAbs ((d :: ds) ++ normAcc [] (splitSlash m')) =
        renderFold ((d :: ds) ++ normAcc [] (splitSlash m')) by
      simp [renderAbs, hne]]
    rw [renderFold_app, ← hdestS]
    rw [commonPref_self_app]
    simp

/-! ### Member filter characterization -/

lemma fetchCheckMembers_go (ms : List PyStr) (st : MembersFilter) :
    ms.foldl
      (fun st m =>
        if m = pyDot then st
        else if memberBad m then { st with warned := st.warned ++ [m] }
        else { st with kept := st.kept ++ [m] }) st =
    { kept := st.kept ++ ms.filter (fun m => !(m == pyDot) && !memberBad m),
      warned := st.warned ++ ms.filter (fun m => !(m == pyDot) && memberBad m) } := by
  induction ms generalizing st with
  | nil => simp
  | cons m ms ih =>
    by_cases h1 : m = pyDot
    · simp [List.foldl_cons, List.filter_cons, h1, ih]
    · by_cases h2 : memberBad m = true
      · simp [List.foldl_cons, List.filter_cons, h1, h2, ih]
      · simp [List.foldl_cons, List.filter_cons, h1, h2, ih]

lemma fetchCheckMembers_eq (ms : List PyStr) :
    fetchCheckMembers ms =
      { kept := ms.filter (fun m => !(m == pyDot) && !memberBad m),
        warned := ms.filter (fun m => !(m == pyDot) && memberBad m) } := by
  unfold fetchCheckMembers
  rw [fetchCheckMembers_go]
  simp

/-! ### Claim C1 -/

/-- C1, counterexample.  The claim fails on the code in two ways.
First, the member named `"."` does not start with `"./"`, so the claim
requires it to be skipped with a warning; the code skips it silently
(no warning is emitted).  Second, the member `"../rootX"` under
destination `"/rel/root"` has a computed target that does not resolve
inside the destination (it resolves to the sibling `"/rel/rootX"`), so
the claim requires the whole extraction to fail; the code's
character-wise common-prefix test accepts that target, no error is
raised, and extraction proceeds with the member merely skipped by the
name filter. -/
theorem c1_counterexample :
    (fetch_extract cexDest [pyDot] =
      { warned := [], outcome := ExtractOutcome.extracted [] }) ∧
    resolvesInside cexDest (pyJoin cexDest cexSibling) = false ∧
    fetch_extract cexDest [cexSibling] =
      { warned := [cexSibling], outcome := ExtractOutcome.extracted [] } := by
  refine ⟨by decide, by decide, by decide⟩

/-- C1 (amended): every archive member other than the literal `"."`
whose name contains `".."` or does not start with `"./"` is skipped
(excluded from extraction) with a warning, while `"."` is skipped
silently; any member whose computed target fails the character-wise
common-prefix containment test against the destination (in particular
any absolute member or member normalizing above the destination, but
not a member resolving to a sibling whose path extends the destination
string) causes the whole extraction to fail with an error before any
member is written; an archive all of whose members are named under
`"./"` (start with `"./"` and contain no `".."`) extracts all its
members successfully. -/
theorem c1_extract_safety (dest : PyStr) (members : List PyStr) :
    (∀ m ∈ members, m ≠ pyDot → memberBad m = true →
      m ∈ (fetch_extract dest members).warned ∧
        ∀ l, (fetch_extract dest members).outcome = ExtractOutcome.extracted l →
          m ∉ l) ∧
    pyDot ∉ (fetch_extract dest members).warned ∧
    ((∃ m ∈ members, is_within_directory dest (pyJoin dest m) = false) →
      (fetch_extract dest members).outcome = ExtractOutcome.traversalError) ∧
    (pyAbspath dest = dest →
      (∀ m ∈ members,
        List.isPrefixOf pyDotSlash m = true ∧ strHas pyDotDot m = false) →
      (fetch_extract dest members).outcome = ExtractOutcome.extracted members) := by
  refine ⟨?_, ?_, ?_, ?_⟩
  · intro m hm hdot hbad
    constructor
    · show m ∈ (fetchCheckMembers members).warned
      rw [fetchCheckMembers_eq]
      simp only [List.mem_filter]
      exact ⟨hm, by simp [hdot, hbad]⟩
    · intro l hl hml
      have hkept : l = (fetchCheckMembers members).kept := by
        unfold fetch_extract safe_extract at hl
        by_cases hany : members.any
            (fun m => !(is_within_directory dest (pyJoin dest m))) = true
        · simp [hany] at hl
        · simp [hany] at hl
          exact hl.symm
      rw [hkept, fetchCheckMembers_eq] at hml
      simp only [List.mem_filter] at hml
      have := hml.2
      simp [hbad] at this
  · show pyDot ∉ (fetchCheckMembers members).warned
    rw [fetchCheckMembers_eq]
    simp [List.mem_filter]
  · rintro ⟨m, hm, hw⟩
    show safe_extract dest members (fetchCheckMembers members).kept =
      ExtractOutcome.traversalError
    unfold safe_extract
    rw [if_pos]
    rw [List.any_eq_true]
    exact ⟨m, hm, by simp [hw]⟩
  · intro hdest hmem
    have hall : members.any
        (fun m => !(is_within_directory dest (pyJoin dest m))) = false := by
      rw [List.any_eq_false]
      intro m hm
      have := within_of_dotSlash dest m hdest (hmem m hm).1 (hmem m hm).2
      simp [this]
    show safe_extract dest members (fetchCheckMembers members).kept =
      ExtractOutcome.extracted members
    unfold safe_extract
    rw [if_neg (by simp [hall])]
    rw [fetchCheckMembers_eq]
    have hfilter : members.filter (fun m => !(m == pyDot) && !memberBad m) =
        members := by
      rw [List.filter_eq_self]
      intro m hm
      obtain ⟨r, hr⟩ := isPrefixOf_dotSlash (hmem m hm).1
      have hnd : ¬(m = pyDot) := by
        rw [hr]
        intro he
        exact absurd he (by simp [pyDot])
      have hbad : memberBad m = false := by
        unfold memberBad
        rw [(hmem m hm).2, (hmem m hm).1]
        rfl
      simp [hnd, hbad]
    rw [hfilter]

/-- C1, witness: a one-member well-formed archive extracts its member,
and a one-member archive with an absolute member name fails with the
traversal error. -/
theorem c1_extract_safety_witness :
    (fetch_extract cexDest [cexGood]).outcome =
        ExtractOutcome.extracted [cexGood] ∧
    (fetch_extract cexDest [cexAbs]).outcome =
        ExtractOutcome.traversalError :=
  ⟨(c1_extract_safety cexDest [cexGood]).2.2.2 (by decide) (by decide),
   (c1_extract_safety cexDest [cexAbs]).2.2.1 ⟨cexAbs, by decide, by decide⟩⟩

/-! ### Verification pass characterization -/

lemma processedFiles_false (selfFiles : List PyStr) :
    processedFiles selfFiles false =
      selfFiles.filter (fun f => !(f == pyMANIFEST)) := by
  unfold processedFiles
  apply List.filter_congr
  intro f _
  simp

lemma checkStep_ff (hashes : List (PyStr × PyStr)) (disk : PyStr → Option PyStr)
    (uList : List PyStr) (st : CheckSt) (f : PyStr)
    (hM : f ≠ pyMANIFEST)
    (hcf : f ∈ uList → ∀ dg, disk f = some dg → (List.lookup f hashes).isSome) :
    checkStep false false hashes disk uList st f =
      Except.ok
        (if checkedFails hashes disk uList f then
          { missing := st.missing ++ [f], extracted := st.extracted }
        else if st.missing = [] then
          { missing := st.missing, extracted := st.extracted ++ [f] }
        else st) := by
  unfold checkStep checkedFails fileFails
  rw [if_neg hM]
  simp only [Bool.false_and, Bool.false_eq_true, if_false]
  by_cases hu : f ∈ uList
  · rw [if_pos hu]
    cases hdisk : disk f with
    | none =>
      simp only [hdisk, decide_eq_true hu, Bool.true_and, Bool.false_eq_true,
        if_false]
      have hne : st.missing ++ [f] ≠ [] := by simp
      simp [hne]
    | some dg =>
      cases hlook : List.lookup f hashes with
      | none =>
        have := hcf hu dg hdisk
        rw [hlook] at this
        simp at this
      | some exp =>
        by_cases hexp : exp = dg
        · simp only [hdisk, hlook, hexp, if_pos rfl, decide_eq_true hu,
            Bool.true_and, bne_self_eq_false, Bool.false_eq_true, if_false]
          by_cases hm : st.missing = [] <;> simp [hm]
        · have hbne : (exp != dg) = true := by simp [hexp]
          simp only [hdisk, hlook, if_neg hexp, decide_eq_true hu,
            Bool.true_and, hbne, Bool.false_eq_true, if_false, if_true]
          have hne : st.missing ++ [f] ≠ [] := by simp
          simp [hne]
  · rw [if_neg hu]
    simp only [decide_eq_false hu, Bool.false_and, Bool.false_eq_true, if_false]
    by_cases hm : st.missing = [] <;> simp [hm]

lemma fetchCheck_fold_ok (hashes : List (PyStr × PyStr))
    (disk : PyStr → Option PyStr) (uList : List PyStr) (files : List PyStr)
    (st : CheckSt)
    (hcov : ∀ g ∈ files, g ≠ pyMANIFEST → (List.lookup g hashes).isSome) :
    List.foldlM (checkStep false false hashes disk uList) st files =
      Except.ok
        { missing := st.missing ++
            (files.filter (fun f => !(f == pyMANIFEST))).filter
              (checkedFails hashes disk uList),
          extracted := st.extracted ++
            (if st.missing = [] then
              (files.filter (fun f => !(f == pyMANIFEST))).takeWhile
                (fun f => !(checkedFails hashes disk uList f))
            else []) } := by
  induction files generalizing st with
  | nil =>
    simp only [List.foldlM_nil, List.filter_nil, List.takeWhile_nil,
      List.append_nil, ite_self]
    rfl
  | cons f fs ih =>
    have hcovfs : ∀ g ∈ fs, g ≠ pyMANIFEST → (List.lookup g hashes).isSome :=
      fun g hg => hcov g (List.mem_cons_of_mem _ hg)
    rw [List.foldlM_cons]
    by_cases hM : f = pyMANIFEST
    · have hstep : checkStep false false hashes disk uList st f = Except.ok st := by
        unfold checkStep
        rw [if_pos hM]
      rw [hstep]
      show List.foldlM _ st fs = _
      rw [ih st hcovfs]
      simp [List.filter_cons, hM]
    · have hcf : f ∈ uList → ∀ dg, disk f = some dg →
          (List.lookup f hashes).isSome :=
        fun _ dg _ => hcov f (List.mem_cons_self _ _) hM
      rw [checkStep_ff hashes disk uList st f hM hcf]
      by_cases hcheck : checkedFails hashes disk uList f = true
      · rw [if_pos hcheck]
        show List.foldlM _ _ fs = _
        rw [ih _ hcovfs]
        have hne : st.missing ++ [f] ≠ [] := by simp
        simp only [hne, Bool.false_eq_true, if_false, List.append_nil]
        by_cases hm : st.missing = []
        · simp [List.filter_cons, List.takeWhile_cons, hM, hcheck, hm]
        · simp [List.filter_cons, List.takeWhile_cons, hM, hcheck, hm]
      · rw [if_neg hcheck]
        by_cases hm : st.missing = []
        · rw [if_pos hm]
          show List.foldlM _ _ fs = _
          rw [ih _ hcovfs]
          simp only [hm]
          simp [List.filter_cons, List.takeWhile_cons, hM, hcheck]
        · rw [if_neg hm]
          show List.foldlM _ _ fs = _
          rw [ih _ hcovfs]
          simp [List.filter_cons, List.takeWhile_cons, hM, hcheck, hm]

lemma exceptBind_ok {ε α β : Type} (a : α) (f : α → Except ε β) :
    (Except.ok a >>= f) = f a := rfl

lemma exceptBind_err {ε α β : Type} (e : ε) (f : α → Except ε β) :
    ((Except.error e : Except ε α) >>= f) = Except.error e := rfl

lemma fetchCheck_char (selfFiles uList : List PyStr)
    (hashes : List (PyStr × PyStr)) (disk : PyStr → Option PyStr)
    (hcov : ∀ g ∈ selfFiles, g ≠ pyMANIFEST → (List.lookup g hashes).isSome) :
    fetchCheck selfFiles uList false (some hashes) disk false =
      { outcome := CheckOutcome.ok ((processedFiles selfFiles false).filter
          (checkedFails hashes disk uList)),
        extracted := (processedFiles selfFiles false).takeWhile
          (fun f => !(checkedFails hashes disk uList f)) } := by
  unfold fetchCheck
  simp only [Option.getD_some, Option.isNone_some, Bool.false_eq_true, if_false]
  rw [fetchCheck_fold_ok hashes disk uList selfFiles
    { missing := [], extracted := [] } hcov]
  rw [processedFiles_false]
  simp

lemma checkStep_ft (hashes : List (PyStr × PyStr)) (disk : PyStr → Option PyStr)
    (uList : List PyStr) (st : CheckSt) (f : PyStr)
    (hM : f ≠ pyMANIFEST)
    (hcf : f ∈ uList → ∀ dg, disk f = some dg → (List.lookup f hashes).isSome) :
    checkStep false true hashes disk uList st f =
      if checkedFails hashes disk uList f then
        Except.error (CheckAbort.fatalMsg sTooMany, st)
      else Except.ok
        (if st.missing = [] then
          { missing := st.missing, extracted := st.extracted ++ [f] }
        else st) := by
  unfold checkStep checkedFails fileFails
  rw [if_neg hM]
  simp only [Bool.false_and, Bool.false_eq_true, if_false]
  by_cases hu : f ∈ uList
  · rw [if_pos hu]
    cases hdisk : disk f with
    | none =>
      simp [hdisk, decide_eq_true hu]
    | some dg =>
      cases hlook : List.lookup f hashes with
      | none =>
        have := hcf hu dg hdisk
        rw [hlook] at this
        simp at this
      | some exp =>
        by_cases hexp : exp = dg
        · simp only [hdisk, hlook, hexp, if_pos rfl, decide_eq_true hu,
            Bool.true_and, bne_self_eq_false, Bool.false_eq_true, if_false]
          by_cases hm : st.missing = [] <;> simp [hm]
        · have hbne : (exp != dg) = true := by simp [hexp]
          simp only [hdisk, hlook, if_neg hexp, decide_eq_true hu,
            Bool.true_and, hbne, if_true]
  · rw [if_neg hu]
    simp only [decide_eq_false hu, Bool.false_and, Bool.false_eq_true, if_false]
    by_cases hm : st.missing = [] <;> simp [hm]

lemma fetchCheck_fold_fatal (hashes : List (PyStr × PyStr))
    (disk : PyStr → Option PyStr) (uList : List PyStr) (files : List PyStr)
    (st : CheckSt)
    (hcov : ∀ g ∈ files, g ≠ pyMANIFEST → (List.lookup g hashes).isSome)
    (hex : ∃ f ∈ files, f ≠ pyMANIFEST ∧ f ∈ uList ∧
      fileFails hashes disk f = true) :
    ∃ stE, List.foldlM (checkStep false true hashes disk uList) st files =
      Except.error (CheckAbort.fatalMsg sTooMany, stE) := by
  induction files generalizing st with
  | nil =>
    obtain ⟨f, hf, _⟩ := hex
    simp at hf
  | cons f fs ih =>
    have hcovfs : ∀ g ∈ fs, g ≠ pyMANIFEST → (List.lookup g hashes).isSome :=
      fun g hg => hcov g (List.mem_cons_of_mem _ hg)
    rw [List.foldlM_cons]
    by_cases hM : f = pyMANIFEST
    · have hstep : checkStep false true hashes disk uList st f = Except.ok st := by
        unfold checkStep
        rw [if_pos hM]
      rw [hstep, exceptBind_ok]
      apply ih st hcovfs
      obtain ⟨g, hg, hgM, hgu, hgf⟩ := hex
      rcases List.mem_cons.mp hg with rfl | hg
      · exact absurd hM hgM
      · exact ⟨g, hg, hgM, hgu, hgf⟩
    · have hcf : f ∈ uList → ∀ dg, disk f = some dg →
          (List.lookup f hashes).isSome :=
        fun _ dg _ => hcov f (List.mem_cons_self _ _) hM
      rw [checkStep_ft hashes disk uList st f hM hcf]
      by_cases hcheck : checkedFails hashes disk uList f = true
      · rw [if_pos hcheck]
        exact ⟨st, rfl⟩
      · rw [if_neg hcheck, exceptBind_ok]
        apply ih _ hcovfs
        obtain ⟨g, hg, hgM, hgu, hgf⟩ := hex
        rcases List.mem_cons.mp hg with rfl | hg
        · exact absurd (by unfold checkedFails; simp [hgu, hgf]) hcheck
        · exact ⟨g, hg, hgM, hgu, hgf⟩

lemma fetchCheck_fold_keyError (disk : PyStr → Option PyStr)
    (uList files : List PyStr) (st : CheckSt) (hmiss : st.missing ≠ [])
    (hex : ∃ f ∈ files, f ≠ pyMANIFEST ∧ f ∈ uList ∧ (disk f).isSome) :
    ∃ g stE, List.foldlM (checkStep false false [] disk uList) st files =
        Except.error (CheckAbort.keyError g, stE) ∧
      stE.extracted = st.extracted := by
  induction files generalizing st with
  | nil =>
    obtain ⟨f, hf, _⟩ := hex
    simp at hf
  | cons f fs ih =>
    rw [List.foldlM_cons]
    by_cases hM : f = pyMANIFEST
    · have hstep : checkStep false false [] disk uList st f = Except.ok st := by
        unfold checkStep
        rw [if_pos hM]
      rw [hstep, exceptBind_ok]
      apply ih st hmiss
      obtain ⟨g, hg, hgM, hgu, hgd⟩ := hex
      rcases List.mem_cons.mp hg with rfl | hg
      · exact absurd hM hgM
      · exact ⟨g, hg, hgM, hgu, hgd⟩
    · by_cases hu : f ∈ uList
      · cases hdisk : disk f with
        | some dg =>
          have hstep : checkStep false false [] disk uList st f =
              Except.error (CheckAbort.keyError f, st) := by
            unfold checkStep
            rw [if_neg hM]
            simp only [Bool.false_and, Bool.false_eq_true, if_false]
            rw [if_pos hu, hdisk]
            rfl
          rw [hstep]
          exact ⟨f, st, rfl, rfl⟩
        | none =>
          have hcf : f ∈ uList → ∀ dg, disk f = some dg →
              (List.lookup f ([] : List (PyStr × PyStr))).isSome := by
            intro _ dg hdg
            rw [hdisk] at hdg
            cases hdg
          rw [checkStep_ff [] disk uList st f hM hcf]
          have hcheck : checkedFails [] disk uList f = true := by
            unfold checkedFails fileFails
            rw [hdisk]
            simp [hu]
          rw [if_pos hcheck, exceptBind_ok]
          have hmiss2 : st.missing ++ [f] ≠ [] := by simp
          have hex2 : ∃ g ∈ fs, g ≠ pyMANIFEST ∧ g ∈ uList ∧ (disk g).isSome := by
            obtain ⟨g, hg, hgM, hgu, hgd⟩ := hex
            rcases List.mem_cons.mp hg with rfl | hg
            · rw [hdisk] at hgd
              simp at hgd
            · exact ⟨g, hg, hgM, hgu, hgd⟩
          obtain ⟨g, stE, hres, hext⟩ := ih
            { missing := st.missing ++ [f], extracted := st.extracted } hmiss2 hex2
          exact ⟨g, stE, hres, hext⟩
      · have hcf : f ∈ uList → ∀ dg, disk f = some dg →
            (List.lookup f ([] : List (PyStr × PyStr))).isSome :=
          fun hfu => absurd hfu hu
        rw [checkStep_ff [] disk uList st f hM hcf]
        have hcheck : checkedFails [] disk uList f = false := by
          unfold checkedFails
          simp [hu]
        rw [hcheck]
        simp only [Bool.false_eq_true, if_false, if_neg hmiss, exceptBind_ok]
        apply ih st hmiss
        obtain ⟨g, hg, hgM, hgu, hgd⟩ := hex
        rcases List.mem_cons.mp hg with rfl | hg
        · exact absurd hgu hu
        · exact ⟨g, hg, hgM, hgu, hgd⟩

lemma downloadList_false (l : List PyStr) : downloadList false l = l := by
  simp [downloadList]

lemma count_one_of_nodup {α : Type} [BEq α] [LawfulBEq α] {l : List α} {a : α}
    (hnd : l.Nodup) (ha : a ∈ l) : l.count a = 1 := by
  induction l with
  | nil => simp at ha
  | cons b bs ih =>
    rw [List.count_cons]
    rcases List.mem_cons.mp ha with rfl | ha2
    · have hb : a ∉ bs := (List.nodup_cons.mp hnd).1
      rw [List.count_eq_zero.mpr hb]
      simp
    · have hne : ¬(b == a) = true := by
        intro hb
        have hba : b = a := eq_of_beq hb
        subst hba
        exact (List.nodup_cons.mp hnd).1 ha2
      rw [ih (List.nodup_cons.mp hnd).2 ha2]
      simp [hne]

lemma fetchHttpVerify_eq_of_ok (selfFiles : List PyStr) (hardened : Bool)
    (manifest : Option (List (PyStr × PyStr))) (disk1 disk2 : PyStr → Option PyStr)
    (fresh : Bool) (m1 ext1 : List PyStr)
    (hc1 : fetchCheck selfFiles selfFiles hardened manifest disk1 false =
      { outcome := CheckOutcome.ok m1, extracted := ext1 })
    (hne : m1 ≠ []) :
    fetchHttpVerify selfFiles hardened manifest disk1 disk2 fresh =
      { downloads := (if fresh then [downloadList hardened selfFiles] else []) ++
          [downloadList hardened m1],
        check1 := { outcome := CheckOutcome.ok m1, extracted := ext1 },
        check2 := some (fetchCheck selfFiles m1 hardened manifest disk2 true) } := by
  unfold fetchHttpVerify
  rw [hc1]
  simp [hne]

/-! ### Claim C2 -/

/-- C2: a required non-manifest file that fails verification (or is
absent) on the first pass is classified missing and redownloaded
exactly once; when it fails again on the second (missing-flag) pass the
orchestrator aborts with the fatal "Too many failed verifications!"
error, and no third download happens — the download trace is exactly
the initial download followed by the one redownload of the missing
set. -/
theorem c2_retry_bound (selfFiles : List PyStr) (hashes : List (PyStr × PyStr))
    (disk1 disk2 : PyStr → Option PyStr) (f : PyStr) (fresh : Bool)
    (hnd : selfFiles.Nodup) (hf : f ∈ selfFiles) (hfM : f ≠ pyMANIFEST)
    (hcov : ∀ g ∈ selfFiles, g ≠ pyMANIFEST → (List.lookup g hashes).isSome)
    (h1 : fileFails hashes disk1 f = true)
    (h2 : fileFails hashes disk2 f = true) :
    ∃ m1,
      (fetchHttpVerify selfFiles false (some hashes) disk1 disk2 fresh).check1.outcome
          = CheckOutcome.ok m1 ∧
      f ∈ m1 ∧
      (fetchHttpVerify selfFiles false (some hashes) disk1 disk2 fresh).downloads =
        (if fresh then [selfFiles] else []) ++ [m1] ∧
      (∃ c2,
        (fetchHttpVerify selfFiles false (some hashes) disk1 disk2 fresh).check2 =
            some c2 ∧
          c2.outcome = CheckOutcome.fatalMsg sTooMany) ∧
      countDownloads f (fetchHttpVerify selfFiles false (some hashes) disk1 disk2 fresh)
        = (if fresh then 1 else 0) + 1 := by
  have hchar := fetchCheck_char selfFiles selfFiles hashes disk1 hcov
  set m1 := (processedFiles selfFiles false).filter
    (checkedFails hashes disk1 selfFiles) with hm1def
  have hfproc : f ∈ processedFiles selfFiles false := by
    rw [processedFiles_false]
    exact List.mem_filter.mpr ⟨hf, by simp [hfM]⟩
  have hfm1 : f ∈ m1 := by
    rw [hm1def]
    apply List.mem_filter.mpr
    refine ⟨hfproc, ?_⟩
    unfold checkedFails
    simp [hf, h1]
  have hm1ne : m1 ≠ [] := fun he => by
    rw [he] at hfm1
    simp at hfm1
  have heq := fetchHttpVerify_eq_of_ok selfFiles false (some hashes) disk1 disk2
    fresh m1 ((processedFiles selfFiles false).takeWhile
      (fun g => !(checkedFails hashes disk1 selfFiles g))) hchar hm1ne
  have hfatal : (fetchCheck selfFiles m1 false (some hashes) disk2 true).outcome =
      CheckOutcome.fatalMsg sTooMany := by
    unfold fetchCheck
    simp only [Option.getD_some, Option.isNone_some, Bool.false_eq_true, if_false]
    obtain ⟨stE, hres⟩ := fetchCheck_fold_fatal hashes disk2 m1 selfFiles
      { missing := [], extracted := [] } hcov ⟨f, hf, hfM, hfm1, h2⟩
    rw [hres]
  have hprocnd : (processedFiles selfFiles false).Nodup := by
    unfold processedFiles
    exact hnd.filter _
  have hm1nd : m1.Nodup := by
    rw [hm1def]
    exact hprocnd.filter _
  refine ⟨m1, ?_, hfm1, ?_, ?_, ?_⟩
  · rw [heq]
  · rw [heq]
    simp [downloadList_false]
  · exact ⟨fetchCheck selfFiles m1 false (some hashes) disk2 true, by rw [heq], hfatal⟩
  · unfold countDownloads
    rw [heq]
    simp only [downloadList_false]
    have hcount1 : selfFiles.count f = 1 := count_one_of_nodup hnd hf
    have hcount2 : m1.count f = 1 := count_one_of_nodup hm1nd hfm1
    cases fresh <;> simp [hcount1, hcount2]

/-- C2, witness: with `base.txz` corrupt on disk before and after the
redownload, the trace consists of the initial download of all files and
one redownload of `base.txz`, and the second pass is fatal. -/
theorem c2_retry_bound_witness :
    ∃ m1,
      (fetchHttpVerify cexFiles false (some cexManifest) cexDiskBaseBad
          cexDiskBaseBad true).check1.outcome = CheckOutcome.ok m1 ∧
      sBase ∈ m1 ∧
      (fetchHttpVerify cexFiles false (some cexManifest) cexDiskBaseBad
          cexDiskBaseBad true).downloads = (if true then [cexFiles] else []) ++ [m1] ∧
      (∃ c2,
        (fetchHttpVerify cexFiles false (some cexManifest) cexDiskBaseBad
            cexDiskBaseBad true).check2 = some c2 ∧
          c2.outcome = CheckOutcome.fatalMsg sTooMany) ∧
      countDownloads sBase (fetchHttpVerify cexFiles false (some cexManifest)
          cexDiskBaseBad cexDiskBaseBad true) = (if true then 1 else 0) + 1 :=
  c2_retry_bound cexFiles cexManifest cexDiskBaseBad cexDiskBaseBad sBase true
    (by decide) (by decide) (by decide) (by decide) (by decide) (by decide)

/-! ### Claim C5 -/

/-- C5, counterexample.  With `base.txz` valid and `doc.txz` corrupt,
the first verification pass reports the nonempty missing set
`[doc.txz]`, yet `base.txz` was already extracted during that very
pass — extraction does not wait for a pass that reports an empty
missing set. -/
theorem c5_counterexample :
    (fetchCheck cexFiles cexFiles false (some cexManifest) cexDiskDocBad
        false).outcome = CheckOutcome.ok [sDoc] ∧
    (fetchCheck cexFiles cexFiles false (some cexManifest) cexDiskDocBad
        false).extracted = [sBase] := by
  refine ⟨by decide, by decide⟩

/-- C5 (amended): within one verification pass, a required file is
extracted exactly while no file examined so far has been classified
missing — the extracted list is the initial segment of the processed
files up to (and excluding) the first failing checked file; hence in a
pass whose final missing set is empty every required non-manifest file
is extracted, but a file early in the order may be extracted in a pass
that later classifies a subsequent file as missing. -/
theorem c5_extract_order (selfFiles uList : List PyStr)
    (hashes : List (PyStr × PyStr)) (disk : PyStr → Option PyStr)
    (hcov : ∀ g ∈ selfFiles, g ≠ pyMANIFEST → (List.lookup g hashes).isSome) :
    (fetchCheck selfFiles uList false (some hashes) disk false).extracted =
      (processedFiles selfFiles false).takeWhile
        (fun f => !(checkedFails hashes disk uList f)) ∧
    ((fetchCheck selfFiles uList false (some hashes) disk false).outcome =
        CheckOutcome.ok [] →
      (fetchCheck selfFiles uList false (some hashes) disk false).extracted =
        processedFiles selfFiles false) := by
  have hchar := fetchCheck_char selfFiles uList hashes disk hcov
  constructor
  · rw [hchar]
  · intro hok
    rw [hchar] at hok ⊢
    simp only at hok
    have hfail : ∀ g ∈ processedFiles selfFiles false,
        ¬(checkedFails hashes disk uList g = true) := by
      rw [← List.filter_eq_nil_iff]
      exact CheckOutcome.ok.inj hok
    simp only
    rw [List.takeWhile_eq_self_iff.mpr]
    intro g hg
    simp [hfail g hg]

/-- C5, witness: with all files verifying, the clean pass reports no
missing file and extracts each required non-manifest file. -/
theorem c5_extract_order_witness :
    (fetchCheck cexFiles cexFiles false (some cexManifest) cexDiskAllGood
        false).extracted = processedFiles cexFiles false :=
  (c5_extract_order cexFiles cexFiles cexManifest cexDiskAllGood
    (by decide)).2 (by decide)

/-! ### Claim C10 -/

/-- C10: when the manifest is absent (and not refetched, e.g. on a
non-canonical server) while some required non-manifest file of the
checked list is present on disk, the verification pass aborts with an
unhandled `KeyError` (the digest lookup in the empty hash map) instead
of classifying the file or returning a missing set, and nothing is
extracted in that pass. -/
theorem c10_manifest_keyError (selfFiles uList : List PyStr)
    (disk : PyStr → Option PyStr) (f : PyStr) (dg : PyStr)
    (hf : f ∈ selfFiles) (hfM : f ≠ pyMANIFEST) (hu : f ∈ uList)
    (hd : disk f = some dg) :
    ∃ g, (fetchCheck selfFiles uList false none disk false).outcome =
        CheckOutcome.keyError g ∧
      (fetchCheck selfFiles uList false none disk false).extracted = [] := by
  unfold fetchCheck
  simp only [Option.getD_none, Option.isNone_none, if_true]
  obtain ⟨g, stE, hres, hext⟩ := fetchCheck_fold_keyError disk uList selfFiles
    { missing := [pyMANIFEST], extracted := [] } (by simp)
    ⟨f, hf, hfM, hu, by rw [hd]; rfl⟩
  rw [hres]
  exact ⟨g, rfl, hext⟩

/-- C10, witness: manifest absent, `base.txz` present on disk — the
pass aborts with a `KeyError`. -/
theorem c10_manifest_keyError_witness :
    ∃ g, (fetchCheck cexFiles cexFiles false none cexDiskAllGood false).outcome =
        CheckOutcome.keyError g ∧
      (fetchCheck cexFiles cexFiles false none cexDiskAllGood false).extracted = [] :=
  c10_manifest_keyError cexFiles cexFiles cexDiskAllGood sBase digestGood
    (by decide) (by decide) (by decide) (by decide)

/-! ### Claim C4 -/

lemma dsAfter_app (b : Bool) (l1 l2 : List RelEvent) :
    dsAfter b (l1 ++ l2) = dsAfter (dsAfter b l1) l2 := by
  induction l1 generalizing b with
  | nil => simp [dsAfter]
  | cons e l1 ih => cases e <;> simp [dsAfter, ih]

lemma fetchReleaseFileLoop_missing (rootDir release : PyStr)
    (present : PyStr → Bool) (files : List PyStr)
    (hex : ∃ f ∈ files, present f = false) :
    ∃ pre f0, present f0 = false ∧
      fetchReleaseFileLoop rootDir release present files =
        pre ++ [RelEvent.dsDestroy,
          RelEvent.errorExc (missingFileMsg rootDir release f0)] ∧
      (∀ b, dsAfter b pre = b) := by
  induction files with
  | nil =>
    obtain ⟨f, hf, _⟩ := hex
    simp at hf
  | cons f fs ih =>
    by_cases hp : present f = true
    · have hex2 : ∃ g ∈ fs, present g = false := by
        obtain ⟨g, hg, hgp⟩ := hex
        rcases List.mem_cons.mp hg with rfl | hg
        · rw [hp] at hgp
          cases hgp
        · exact ⟨g, hg, hgp⟩
      obtain ⟨pre, f0, hf0, hloop, hpre⟩ := ih hex2
      refine ⟨(RelEvent.copyFile f ::
        (if f = pyMANIFEST then [] else [RelEvent.extractFile f])) ++ pre, f0, hf0,
        ?_, ?_⟩
      · simp only [fetchReleaseFileLoop, hp, if_true]
        rw [hloop]
        by_cases hM : f = pyMANIFEST <;> simp [hM]
      · intro b
        by_cases hM : f = pyMANIFEST <;>
          simp [hM, dsAfter_app, dsAfter, hpre b]
    · have hp2 : present f = false := by
        cases hpf : present f
        · rfl
        · exact absurd hpf hp
      refine ⟨[], f, hp2, ?_, fun b => rfl⟩
      simp [fetchReleaseFileLoop, hp2]

/-- C4, counterexample.  With the download dataset initially absent and
`MANIFEST` missing from `<root-dir>/<release>`, the local-directory
branch first creates the dataset, then destroys it and raises the
error: the dataset creation happens strictly before the failure, so the
failure does not occur before any download dataset is created. -/
theorem c4_counterexample :
    (fetch_release_file cexRootDir relName cexFiles (fun _ => false)
        false).events =
      [RelEvent.dsCreate, RelEvent.dsDestroy,
        RelEvent.errorExc (missingFileMsg cexRootDir relName pyMANIFEST)] ∧
    createBeforeError
      (fetch_release_file cexRootDir relName cexFiles (fun _ => false)
        false).events := by
  refine ⟨by decide, ⟨0, 2, missingFileMsg cexRootDir relName pyMANIFEST,
    by omega, by decide, by decide⟩⟩

/-- C4 (amended): a local-directory fetch with a required file absent
from `<root-dir>/<release>` fails with an error message naming the
expected path `<root-dir>/<release>`; the download dataset may be
created (or already exist) before the per-file check, but it is
unmounted and destroyed before the error is raised, so no download
dataset for the release exists after the failure. -/
theorem c4_local_missing_file (rootDir release : PyStr) (files : List PyStr)
    (present : PyStr → Bool) (dsExists : Bool)
    (hex : ∃ f ∈ files, present f = false) :
    ∃ msg,
      (fetch_release_file rootDir release files present dsExists).events.getLast?
          = some (RelEvent.errorExc msg) ∧
      strHas (rootDir ++ '/' :: release) msg = true ∧
      RelEvent.dsDestroy ∈
        (fetch_release_file rootDir release files present dsExists).events ∧
      (fetch_release_file rootDir release files present dsExists).datasetExists
          = false := by
  obtain ⟨pre, f0, hf0, hloop, hpre⟩ :=
    fetchReleaseFileLoop_missing rootDir release present files hex
  refine ⟨missingFileMsg rootDir release f0, ?_, ?_, ?_, ?_⟩
  · show ((if dsExists then [] else [RelEvent.dsCreate]) ++
      fetchReleaseFileLoop rootDir release present files).getLast? = _
    rw [hloop]
    rw [show ((if dsExists then [] else [RelEvent.dsCreate]) ++
        (pre ++ [RelEvent.dsDestroy,
          RelEvent.errorExc (missingFileMsg rootDir release f0)])) =
      (((if dsExists then [] else [RelEvent.dsCreate]) ++ pre) ++
        [RelEvent.dsDestroy]) ++
        [RelEvent.errorExc (missingFileMsg rootDir release f0)] by simp]
    rw [List.getLast?_concat]
  · unfold missingFileMsg
    have h := strHas_app (rootDir ++ '/' :: release)
      ((if f0 = pyMANIFEST then f0 ++ sRequiredA else f0 ++ sRequiredB) ++ sPlaceIt)
      []
    simpa using h
  · show RelEvent.dsDestroy ∈ (if dsExists then [] else [RelEvent.dsCreate]) ++
      fetchReleaseFileLoop rootDir release present files
    rw [hloop]
    simp
  · show dsAfter dsExists ((if dsExists then [] else [RelEvent.dsCreate]) ++
      fetchReleaseFileLoop rootDir release present files) = false
    rw [hloop, dsAfter_app, dsAfter_app, hpre]
    cases dsExists <;> simp [dsAfter]

/-- C4, witness: all files absent, dataset initially absent — the run
errors with the path-naming message, destroys the dataset, and leaves
no dataset. -/
theorem c4_local_missing_file_witness :
    ∃ msg,
      (fetch_release_file cexRootDir relName cexFiles (fun _ => false)
          false).events.getLast? = some (RelEvent.errorExc msg) ∧
      strHas (cexRootDir ++ '/' :: relName) msg = true ∧
      RelEvent.dsDestroy ∈
        (fetch_release_file cexRootDir relName cexFiles (fun _ => false)
          false).events ∧
      (fetch_release_file cexRootDir relName cexFiles (fun _ => false)
          false).datasetExists = false :=
  c4_local_missing_file cexRootDir relName cexFiles (fun _ => false) false
    ⟨pyMANIFEST, by decide, rfl⟩

/-! ### Claim C6 -/

lemma toNat_ofNat_valid (n : Nat) (h : n.isValidChar) :
    (Char.ofNat n).toNat = n := by
  unfold Char.ofNat
  rw [dif_pos h]
  rfl

lemma pyCharUpper_idem (c : Char) :
    pyCharUpper (pyCharUpper c) = pyCharUpper c := by
  unfold pyCharUpper
  by_cases h : c.toNat ≥ 97 ∧ c.toNat ≤ 122
  · rw [if_pos h]
    have hv : (Char.ofNat (c.toNat - 32)).toNat = c.toNat - 32 :=
      toNat_ofNat_valid _ (Or.inl (by omega))
    rw [if_neg]
    omega
  · rw [if_neg h, if_neg h]

lemma pyUpper_app (a b : PyStr) : pyUpper (a ++ b) = pyUpper a ++ pyUpper b := by
  simp [pyUpper]

lemma pyUpper_idem (s : PyStr) : pyUpper (pyUpper s) = pyUpper s := by
  unfold pyUpper
  rw [List.map_map]
  apply List.map_congr_left
  intro c _
  exact pyCharUpper_idem c

lemma pyUpper_take (s : PyStr) (n : Nat) :
    pyUpper (s.take n) = (pyUpper s).take n := by
  simp [pyUpper, List.map_take]

/-- C6: a hardened-lineage configuration selects the HTTP backend
regardless of the caller's `http`/`_file` flags, and any supplied
release identifier is rewritten to the first two characters of its
upper-cased form followed by the upper-case `-STABLE` channel suffix. -/
theorem c6_hardened_forces_http (rel : Option PyStr) (r : PyStr)
    (http fileFlag : Bool) :
    fetch_release_backend (iocFetchInit rel http fileFlag true) = Backend.httpB ∧
    (iocFetchInit (some r) http fileFlag true).release =
      some ((pyUpper r).take 2 ++ sSTABLE) := by
  constructor
  · simp [iocFetchInit, fetch_release_backend]
  · have hs : pyUpper sStableLower = sSTABLE := by decide
    simp only [iocFetchInit, if_true, Option.map_some']
    rw [pyUpper_app, hs, ← pyUpper_take, pyUpper_idem, pyUpper_take]

/-! ### Claim C7 -/

lemma propKey_mk (k v : PyStr) (hk : '=' ∉ k) : propKey (k ++ '=' :: v) = k := by
  unfold propKey
  induction k with
  | nil => simp [List.takeWhile_cons]
  | cons c cs ih =>
    have hc : c ≠ '=' := fun e => hk (e ▸ List.mem_cons_self _ _)
    have hcs : '=' ∉ cs := fun e => hk (List.mem_cons_of_mem _ e)
    simp only [List.cons_append, List.takeWhile_cons]
    simp [hc, ih hcs]

/-- C7: merging caller-supplied properties with descriptor-declared
properties keeps every caller property unchanged, discards each
descriptor property whose key already occurs among the caller keys, and
appends (in order) each descriptor property whose key does not collide,
rendered as `key=value`. -/
theorem c7_props_merge (props : List PyStr) (jsonProps : List (PyStr × PyStr))
    (hnd : (jsonProps.map Prod.fst).Nodup)
    (hkeys : ∀ kv ∈ jsonProps, '=' ∉ kv.1) :
    fetchPluginProps props jsonProps =
      props ++ (jsonProps.filter
          (fun kv => !(decide (kv.1 ∈ props.map propKey)))).map
        (fun kv => kv.1 ++ '=' :: kv.2) := by
  induction jsonProps generalizing props with
  | nil => simp [fetchPluginProps]
  | cons kv rest ih =>
    have hk : '=' ∉ kv.1 := hkeys kv (List.mem_cons_self _ _)
    have hkeys2 : ∀ p ∈ rest, '=' ∉ p.1 :=
      fun p hp => hkeys p (List.mem_cons_of_mem _ hp)
    have hnd2 : (rest.map Prod.fst).Nodup := by
      rw [List.map_cons] at hnd
      exact (List.nodup_cons.mp hnd).2
    have hknotin : kv.1 ∉ rest.map Prod.fst := by
      rw [List.map_cons] at hnd
      exact (List.nodup_cons.mp hnd).1
    have ih2 := fun props2 => ih props2 hnd2 hkeys2
    unfold fetchPluginProps at ih2 ⊢
    rw [List.foldl_cons]
    by_cases hmem : kv.1 ∈ props.map propKey
    · rw [if_pos hmem]
      rw [ih2 props]
      have hpk : (!(decide (kv.1 ∈ props.map propKey))) = false := by
        simp [hmem]
      rw [List.filter_cons, hpk]
      simp only [Bool.false_eq_true, if_false]
    · rw [if_neg hmem]
      rw [ih2 (props ++ [kv.1 ++ '=' :: kv.2])]
      have hkeyeq : (props ++ [kv.1 ++ '=' :: kv.2]).map propKey =
          props.map propKey ++ [kv.1] := by
        rw [List.map_append]
        simp [propKey_mk kv.1 kv.2 hk]
      have hfeq : rest.filter
          (fun p => !(decide (p.1 ∈ (props ++ [kv.1 ++ '=' :: kv.2]).map propKey)))
          = rest.filter (fun p => !(decide (p.1 ∈ props.map propKey))) := by
        apply List.filter_congr
        intro p hp
        have hne : p.1 ≠ kv.1 := by
          intro he
          exact hknotin (he ▸ List.mem_map_of_mem Prod.fst hp)
        have hd : decide (p.1 ∈ (props ++ [kv.1 ++ '=' :: kv.2]).map propKey) =
            decide (p.1 ∈ props.map propKey) := by
          apply decide_eq_decide.mpr
          rw [hkeyeq]
          simp [List.mem_append, hne]
        rw [hd]
      rw [hfeq]
      have hpk : (!(decide (kv.1 ∈ props.map propKey))) = true := by
        simp [hmem]
      rw [List.filter_cons, hpk]
      simp

/-- C7, witness: the caller's `vnet=off` suppresses the descriptor's
`vnet` value while the non-colliding `dhcp` property is appended. -/
theorem c7_props_merge_witness :
    fetchPluginProps [cexUserProp] cexJsonProps =
      [cexUserProp] ++ (cexJsonProps.filter
          (fun kv => !(decide (kv.1 ∈ ([cexUserProp]).map propKey)))).map
        (fun kv => kv.1 ++ '=' :: kv.2) :=
  c7_props_merge [cexUserProp] cexJsonProps (by decide) (by decide)

/-! ### Claim C8 -/

lemma fetchValidateRelease_route (input : PyStr) (releases : List PyStr)
    (hostRelease : PyStr) (hexit : pyLower input ≠ sExit) :
    (fetchValidateRelease input releases hostRelease).route =
      (if input.length > 2 then ValRoute.nameR
       else if (pyIntParse input).isSome then ValRoute.indexR
       else ValRoute.hostR) := by
  unfold fetchValidateRelease
  rw [if_neg hexit]
  by_cases hlen : input.length > 2
  · rw [if_pos hlen, if_pos hlen]
    by_cases hmem : input ∈ releases
    · rw [if_pos hmem]
    · rw [if_neg hmem]
  · rw [if_neg hlen, if_neg hlen]
    cases hparse : pyIntParse input with
    | some i =>
      simp only [hparse, Option.isSome_some, if_true]
      cases hidx : pyIndexGet releases i <;> simp
    | none =>
      simp only [hparse, Option.isSome_none, Bool.false_eq_true, if_false]
      by_cases hstable : strHas sSTABLE hostRelease = true
      · rw [if_pos hstable]
      · rw [if_neg hstable]
        by_cases hmem : hostRelease ∈ releases
        · rw [if_pos hmem]
        · rw [if_neg hmem]

/-- C8, counterexample.  The two-character non-numeric input `"ab"` is
not interpreted as a numeric menu index: its `int` parse fails and the
host-release fallback runs instead — and even though `"ab"` itself is
in the release list, it is not matched by name. -/
theorem c8_counterexample :
    (fetchValidateRelease cexInputAB [cexInputAB] relName).route =
        ValRoute.hostR ∧
    ValRoute.hostR ≠ ValRoute.indexR ∧
    (fetchValidateRelease cexInputAB [cexInputAB] relName).outcome ≠
      ValOutcome.chosen cexInputAB := by
  refine ⟨by decide, by decide, by decide⟩

/-- C8 (amended): for every non-`exit` input, a string longer than two
characters is always validated by exact membership in the release list
(never as an index); a string of at most two characters is interpreted
as a numeric index when it parses as an integer and otherwise falls
back to the host release — in either case it is never matched by name,
so a release identifier of one or two characters is never selected by
name and a numeric string of three or more digits is never accepted as
an index. -/
theorem c8_selection_length (input : PyStr) (releases : List PyStr)
    (hostRelease : PyStr) (hexit : pyLower input ≠ sExit) :
    (input.length > 2 →
      (fetchValidateRelease input releases hostRelease).route = ValRoute.nameR) ∧
    (input.length ≤ 2 → (pyIntParse input).isSome →
      (fetchValidateRelease input releases hostRelease).route = ValRoute.indexR) ∧
    (input.length ≤ 2 → pyIntParse input = none →
      (fetchValidateRelease input releases hostRelease).route = ValRoute.hostR) ∧
    (input.length ≤ 2 →
      (fetchValidateRelease input releases hostRelease).route ≠ ValRoute.nameR) ∧
    (input.length > 2 →
      (fetchValidateRelease input releases hostRelease).route ≠ ValRoute.indexR) := by
  rw [fetchValidateRelease_route input releases hostRelease hexit]
  refine ⟨?_, ?_, ?_, ?_, ?_⟩
  · intro hlen
    rw [if_pos hlen]
  · intro hlen hparse
    rw [if_neg (by omega), if_pos hparse]
  · intro hlen hparse
    rw [if_neg (by omega), if_neg (by simp [hparse])]
  · intro hlen
    rw [if_neg (by omega)]
    by_cases hparse : (pyIntParse input).isSome
    · rw [if_pos hparse]
      decide
    · rw [if_neg hparse]
      decide
  · intro hlen
    rw [if_pos hlen]
    decide

/-- C8, witness: the one-digit input `"0"` selects by index, and the
two-character identifier `"ab"` is not matched by name even when
present in the list. -/
theorem c8_selection_length_witness :
    (fetchValidateRelease cexInput0 [relName] relName).route = ValRoute.indexR ∧
    (fetchValidateRelease cexInputAB [cexInputAB] relName).route ≠
      ValRoute.nameR :=
  ⟨(c8_selection_length cexInput0 [relName] relName (by decide)).2.1
      (by decide) (by decide),
   (c8_selection_length cexInputAB [cexInputAB] relName (by decide)).2.2.2.1
      (by decide)⟩


/-! ### Claim C9 -/

lemma writeFingerprints_go (pairs : List (PyStr × PyStr)) (st : FingerFile) :
    pairs.foldl
      (fun st pr =>
        { content := some (fingerConf pr.1 pr.2), opens := st.opens + 1 }) st =
      { content := (pairs.getLast?).elim st.content
          (fun pr => some (fingerConf pr.1 pr.2)),
        opens := st.opens + pairs.length } := by
  induction pairs generalizing st with
  | nil => simp
  | cons pr rest ih =>
    rw [List.foldl_cons, ih]
    cases hl : rest.getLast? with
    | none =>
      have hrn : rest = [] := List.getLast?_eq_none_iff.mp hl
      subst hrn
      simp
    | some y =>
      have hlast : (pr :: rest).getLast? = some y := by
        cases rest with
        | nil => simp at hl
        | cons q qs => rw [List.getLast?_cons_cons, hl]
      rw [hlast]
      simp only [Option.elim]
      simp only [List.length_cons]
      congr 1
      omega

/-- C9: for a trusted repository whose fingerprint list is nonempty,
each `(function, fingerprint)` pair opens the single fingerprint file
in truncating write mode once (one open per pair), so after the loop
the file holds exactly the rendering of the last pair of the list; all
earlier pairs are silently lost. -/
theorem c9_fingerprint_overwrite (pairs : List (PyStr × PyStr))
    (h : pairs ≠ []) :
    writeFingerprints pairs =
      { content := some (fingerConf (pairs.getLast h).1 (pairs.getLast h).2),
        opens := pairs.length } := by
  unfold writeFingerprints
  rw [writeFingerprints_go]
  have hl : pairs.getLast? = some (pairs.getLast h) := List.getLast?_eq_getLast _ h
  rw [hl]
  simp [Option.elim]

/-- C9, witness: a two-pair fingerprint list ends with only the second
pair's rendering on file, after two truncating opens. -/
theorem c9_fingerprint_overwrite_witness :
    writeFingerprints cexPairs =
      { content := some (fingerConf (cexPairs.getLast (by decide)).1
          (cexPairs.getLast (by decide)).2),
        opens := cexPairs.length } :=
  c9_fingerprint_overwrite cexPairs (by decide)

/-! ### Claim C3 -/

/-- C3, counterexample.  A fatal (non-interrupt) failure during package
installation — for example the "Module not found!" error — occurs after
the environment has been created, yet the run propagates the error
without any destruction event: the `except` clause of `fetch_plugin`
only catches `KeyboardInterrupt`, so this fatal failure leaves the
created environment behind. -/
theorem c3_counterexample :
    fetch_plugin_run PyRes.ok cexIp sNone sNone
        (PyRes.exc sModuleNotFound) PyRes.ok =
      [PlugEvent.jailCreated, PlugEvent.installStep,
        PlugEvent.fatalError sModuleNotFound] ∧
    PlugEvent.jailCreated ∈ fetch_plugin_run PyRes.ok cexIp sNone sNone
        (PyRes.exc sModuleNotFound) PyRes.ok ∧
    PlugEvent.destroyJail ∉ fetch_plugin_run PyRes.ok cexIp sNone sNone
        (PyRes.exc sModuleNotFound) PyRes.ok := by
  refine ⟨by decide, by decide, by decide⟩

/-- C3 (amended): a keyboard interruption during creation, package
installation or post-install destroys the environment and exits with
status 1, and the post-creation validation failure (no IPv4, no IPv6,
DHCP off) destroys the environment before raising the fatal
"Destroyed partial plugin." error; other fatal failures after creation
propagate without destroying the environment. -/
theorem c3_plugin_destroy (ip4 ip6 dhcp : PyStr) (installRes postRes : PyRes) :
    (fetch_plugin_run PyRes.kbInt ip4 ip6 dhcp installRes postRes =
      [PlugEvent.destroyJail, PlugEvent.exitProcess 1]) ∧
    (ip4 = sNone → ip6 = sNone → dhcp ≠ sOn →
      fetch_plugin_run PyRes.ok ip4 ip6 dhcp installRes postRes =
        [PlugEvent.jailCreated, PlugEvent.destroyJail,
          PlugEvent.fatalError sDestroyedPartial]) ∧
    (¬(ip4 = sNone ∧ ip6 = sNone ∧ dhcp ≠ sOn) →
      fetch_plugin_run PyRes.ok ip4 ip6 dhcp PyRes.kbInt postRes =
        [PlugEvent.jailCreated, PlugEvent.installStep,
          PlugEvent.destroyJail, PlugEvent.exitProcess 1]) ∧
    (¬(ip4 = sNone ∧ ip6 = sNone ∧ dhcp ≠ sOn) →
      fetch_plugin_run PyRes.ok ip4 ip6 dhcp PyRes.ok PyRes.kbInt =
        [PlugEvent.jailCreated, PlugEvent.installStep,
          PlugEvent.postInstallStep, PlugEvent.destroyJail,
          PlugEvent.exitProcess 1]) ∧
    (∀ m, ¬(ip4 = sNone ∧ ip6 = sNone ∧ dhcp ≠ sOn) →
      fetch_plugin_run PyRes.ok ip4 ip6 dhcp (PyRes.exc m) postRes =
        [PlugEvent.jailCreated, PlugEvent.installStep,
          PlugEvent.fatalError m]) := by
  refine ⟨?_, ?_, ?_, ?_, ?_⟩
  · cases installRes <;> cases postRes <;>
      simp [fetch_plugin_run, fetchPluginCreate]
  · intro h4 h6 hd
    have hcond : ip4 = sNone ∧ ip6 = sNone ∧ dhcp ≠ sOn := ⟨h4, h6, hd⟩
    cases installRes <;> cases postRes <;>
      simp [fetch_plugin_run, fetchPluginCreate, hcond]
  · intro hcond
    simp [fetch_plugin_run, fetchPluginCreate, hcond]
  · intro hcond
    simp [fetch_plugin_run, fetchPluginCreate, hcond]
  · intro m hcond
    cases postRes <;> simp [fetch_plugin_run, fetchPluginCreate, hcond]

/-- C3, witness: the no-address configuration destroys the created
environment before the fatal error, and an interruption during package
installation destroys it and exits with status 1. -/
theorem c3_plugin_destroy_witness :
    (fetch_plugin_run PyRes.ok sNone sNone sNone PyRes.ok PyRes.ok =
      [PlugEvent.jailCreated, PlugEvent.destroyJail,
        PlugEvent.fatalError sDestroyedPartial]) ∧
    (fetch_plugin_run PyRes.ok cexIp sNone sNone PyRes.kbInt PyRes.ok =
      [PlugEvent.jailCreated, PlugEvent.installStep,
        PlugEvent.destroyJail, PlugEvent.exitProcess 1]) :=
  ⟨(c3_plugin_destroy sNone sNone sNone PyRes.ok PyRes.ok).2.1 rfl rfl
      (by decide),
   (c3_plugin_destroy cexIp sNone sNone PyRes.kbInt PyRes.ok).2.2.1
      (by decide)⟩
